import Mathlib

/-!
# UART / NVS echo firmware (`main/main.c`)

A shallow embedding of the receive / store / echo loop `uart_nvs_echo_task`
and of the retrieve action `uart_send_stored_nvs_data`.

* Bytes (`uint8_t`) are natural numbers; the UART delivers values below 256.
* The task is driven by the bytes that `uart_read_bytes` delivers; a finite
  input list is processed and the task then blocks in `uart_read_bytes`.
* Everything the task does to the outside world is recorded as a list of
  `Event`s, in program order.
* A C operation without defined behaviour (indexing `buffer` at or beyond
  `sizeof(buffer)`) ends the run with `Except.error`.
-/

set_option maxRecDepth 20000

deriving instance DecidableEq for Except

namespace UartNvs

/-! ## Constants -/

/-- Value of `sizeof(buffer)` for `uint8_t buffer[512]` (main.c:58 and main.c:134). -/
def BUFFER_SIZE : Nat := 512

/-- The bytes of a C string literal (without the terminating NUL). -/
def cstr (s : String) : List Nat := s.toList.map Char.toNat

/-- Source: `static const char *DEVICE_ID = "ESP32_UART_TARGET:UNIT_01\n";` (main.c:19). -/
def DEVICE_ID : List Nat := cstr "ESP32_UART_TARGET:UNIT_01\n"

/-- C `strlen`: the number of bytes before the first NUL. -/
def strlen (s : List Nat) : Nat := (s.takeWhile (fun c => c != 0)).length

/-! ## The non-volatile storage collaborator -/

/-- Open mode of `nvs_open`. -/
inductive OpenMode
  | NVS_READONLY
  | NVS_READWRITE
deriving DecidableEq, Repr

/-- What the flash partition holds for namespace `"uart"`: either the
namespace does not exist, or it exists and key `"rx_data"` is absent
(`none`) or holds a blob. -/
inductive Flash
  | absent
  | uart (rx_data : Option (List Nat))
deriving DecidableEq, Repr

/-- The state behind an open handle: its mode and the value written with
`nvs_set_blob` that `nvs_commit` has not yet published. -/
structure Handle where
  mode : OpenMode
  pending : Option (List Nat)
deriving DecidableEq, Repr

/-- Modelled from the spec: the Persistent Key-Value Store of spec section 6
(`open`, `get_blob`, `set_blob`, `commit`, `close`), which is the ESP-IDF NVS
library and is not part of the repository.

* `flash` is the committed content.
* `handle` is the live handle that the caller's `nvs_handle_t handle` variable
  designates, if any (`none`: the variable holds no live handle, as after a
  failed `nvs_open` or after `nvs_close`).
* `faults` is the failure schedule of the store: every call of `nvs_open`,
  `nvs_set_blob`, `nvs_commit` or `nvs_get_blob` consumes the head of the
  list and fails without any effect when it is `true`. An exhausted list
  means that no further failure is injected. -/
structure Nvs where
  flash : Flash
  handle : Option Handle
  faults : List Bool
deriving DecidableEq, Repr

/-- The stored record: the committed blob under `"uart"` / `"rx_data"`. -/
def Nvs.record (w : Nvs) : Option (List Nat) :=
  match w.flash with
  | .absent => none
  | .uart r => r

/-- Does the store fail the next call? -/
def Nvs.injected (w : Nvs) : Bool := w.faults.headD false

/-- The store after one call has consumed its entry of the failure schedule. -/
def Nvs.consume (w : Nvs) : Nvs := { w with faults := w.faults.tail }

/-- No failure is injected: all storage operations succeed whenever the
content of the flash allows it. -/
def NoFaults (w : Nvs) : Prop := ∀ b ∈ w.faults, b = false

instance (w : Nvs) : Decidable (NoFaults w) := by
  unfold NoFaults; infer_instance

/-- Modelled from the spec: `nvs_open("uart", mode, &handle)`. Returns whether
the result is `ESP_OK`. Read-only opening fails when the namespace does not
exist; read-write opening creates it. On failure the handle variable
designates no live handle. -/
def nvs_open (mode : OpenMode) (w : Nvs) : Bool × Nvs :=
  let w1 := w.consume
  if w.injected then (false, { w1 with handle := none })
  else
    match mode, w.flash with
    | .NVS_READONLY, .absent => (false, { w1 with handle := none })
    | .NVS_READONLY, .uart _ => (true, { w1 with handle := some ⟨.NVS_READONLY, none⟩ })
    | .NVS_READWRITE, .absent =>
        (true, { w1 with flash := .uart none, handle := some ⟨.NVS_READWRITE, none⟩ })
    | .NVS_READWRITE, .uart _ => (true, { w1 with handle := some ⟨.NVS_READWRITE, none⟩ })

/-- Modelled from the spec: `nvs_set_blob(handle, "rx_data", value, length)`.
Fails on a handle that is not live or is read-only; otherwise the value
becomes the pending write of the handle. -/
def nvs_set_blob (value : List Nat) (w : Nvs) : Bool × Nvs :=
  let w1 := w.consume
  if w.injected then (false, w1)
  else
    match w.handle with
    | some ⟨.NVS_READWRITE, _⟩ =>
        (true, { w1 with handle := some ⟨.NVS_READWRITE, some value⟩ })
    | _ => (false, w1)

/-- Modelled from the spec: `nvs_commit(handle)`. Fails on a handle that is
not live; otherwise publishes the pending write, if any, to the flash. -/
def nvs_commit (w : Nvs) : Bool × Nvs :=
  let w1 := w.consume
  if w.injected then (false, w1)
  else
    match w.handle with
    | none => (false, w1)
    | some ⟨_, none⟩ => (true, w1)
    | some ⟨mode, some value⟩ =>
        (true, { w1 with flash := .uart (some value), handle := some ⟨mode, none⟩ })

/-- Modelled from the spec: `nvs_close(handle)`. Returns whether the handle
was live; a write that was not committed is dropped. -/
def nvs_close (w : Nvs) : Bool × Nvs :=
  (w.handle.isSome, { w with handle := none })

/-- Result of `nvs_get_blob`: `ESP_OK` or not, the caller's buffer and the
in/out length afterwards, and the store. -/
structure GetBlob where
  ok : Bool
  out_value : List Nat
  length : Nat
  nvs : Nvs
deriving DecidableEq, Repr

/-- Modelled from the spec: `nvs_get_blob(handle, "rx_data", out_value, &length)`.
On a handle that is not live, on an absent key and on an injected failure
the buffer and the length are left as they were. A blob longer than `length`
is not copied and the required size is written to `length`
(`ESP_ERR_NVS_INVALID_LENGTH`). Otherwise the blob is copied to the start of
the buffer and `length` becomes its size. -/
def nvs_get_blob (out_value : List Nat) (length : Nat) (w : Nvs) : GetBlob :=
  let w1 := w.consume
  if w.injected then ⟨false, out_value, length, w1⟩
  else
    match w.handle, w.flash with
    | some _, .uart (some v) =>
        if length < v.length then ⟨false, out_value, v.length, w1⟩
        else ⟨true, v ++ out_value.drop v.length, v.length, w1⟩
    | _, _ => ⟨false, out_value, length, w1⟩

/-! ## Observable events -/

/-- One call that the firmware makes to a collaborator. -/
inductive Event
  /-- Call `uart_write_bytes(UART_PORT, data, n)`. -/
  | uart_write_bytes (data : List Nat)
  /-- Call `nvs_open("uart", mode, &handle)` and whether it returned `ESP_OK`. -/
  | nvs_open (mode : OpenMode) (ok : Bool)
  /-- Call `nvs_set_blob(handle, "rx_data", value, n)` and whether it returned `ESP_OK`. -/
  | nvs_set_blob (value : List Nat) (ok : Bool)
  /-- Call `nvs_commit(handle)` and whether it returned `ESP_OK`. -/
  | nvs_commit (ok : Bool)
  /-- Call `nvs_get_blob(handle, "rx_data", buffer, &len)` and whether it returned `ESP_OK`. -/
  | nvs_get_blob (ok : Bool)
  /-- Call `nvs_close(handle)` and whether the handle was live. -/
  | nvs_close (live : Bool)
deriving DecidableEq, Repr

/-- The bytes put on the transport by a sequence of events, in order. -/
def transmitted : List Event → List Nat
  | [] => []
  | .uart_write_bytes data :: es => data ++ transmitted es
  | _ :: es => transmitted es

/-- The byte-by-byte transmit loop
`for (i = 0; i < n; i++) uart_write_bytes(UART_PORT, &buffer[i], 1);`
(main.c:119-121 and main.c:149-151), for `n` within the buffer. -/
def send_bytes (buffer : List Nat) (n : Nat) : List Event :=
  (buffer.take n).map (fun b => Event.uart_write_bytes [b])

/-! ## The firmware -/

/-- Undefined behaviour of the C program. -/
inductive Undefined
  /-- Assignment `buffer[len++] = rx` with `len` at or beyond `sizeof(buffer)`. -/
  | buffer_write (index : Nat)
  /-- Read of `&buffer[i]` with `i` at or beyond `sizeof(buffer)`. -/
  | buffer_read (index : Nat)
deriving DecidableEq, Repr

/-- Function `uart_send_stored_nvs_data` (main.c:132-155). The local `buffer` is not
initialised in C; `local_buffer` is its content on entry. -/
def uart_send_stored_nvs_data_on (local_buffer : List Nat) (w : Nvs) : Nvs × List Event :=
  let len := BUFFER_SIZE
  let o := nvs_open .NVS_READONLY w
  if o.1 = false then
    (o.2, [.nvs_open .NVS_READONLY false])
  else
    let g := nvs_get_blob local_buffer len o.2
    let c := nvs_close g.nvs
    let calls : List Event := [.nvs_open .NVS_READONLY true, .nvs_get_blob g.ok, .nvs_close c.1]
    if g.ok = true ∧ 0 < g.length then
      (c.2, calls ++ send_bytes g.out_value g.length)
    else
      (c.2, calls)

/-- Function `uart_send_stored_nvs_data` with its local buffer zero-filled on entry
(the content is never read before `nvs_get_blob` has overwritten it, see
`uart_send_stored_nvs_data_on_indep`). -/
def uart_send_stored_nvs_data (w : Nvs) : Nvs × List Event :=
  uart_send_stored_nvs_data_on (List.replicate BUFFER_SIZE 0) w

/-- The variables of `uart_nvs_echo_task` that live across calls of
`uart_read_bytes`, and the store. `buffer` is declared outside the outer loop
and keeps its content from one frame to the next; `len` is the number of
bytes accumulated in the frame in progress. -/
structure State where
  buffer : List Nat
  len : Nat
  nvs : Nvs
deriving DecidableEq, Repr

/-- The store-and-echo part of the outer loop body (main.c:100-121), entered
with the completed frame in `buffer[0..len)`. -/
def store_and_echo (buffer : List Nat) (len : Nat) (w : Nvs) :
    Except Undefined (State × List Event) :=
  -- store (main.c:101-105)
  let o := nvs_open .NVS_READWRITE w
  let sb := nvs_set_blob (buffer.take len) o.2
  let cm := nvs_commit sb.2
  let c1 := nvs_close cm.2
  -- read back (main.c:110-113)
  let read_len := BUFFER_SIZE
  let o2 := nvs_open .NVS_READONLY c1.2
  let g := nvs_get_blob buffer read_len o2.2
  let c2 := nvs_close g.nvs
  let calls : List Event :=
    [.nvs_open .NVS_READWRITE o.1, .nvs_set_blob (buffer.take len) sb.1, .nvs_commit cm.1,
     .nvs_close c1.1, .nvs_open .NVS_READONLY o2.1, .nvs_get_blob g.ok, .nvs_close c2.1]
  -- retransmit (main.c:119-121)
  if g.length ≤ BUFFER_SIZE then
    .ok ({ buffer := g.out_value, len := 0, nvs := c2.2 }, calls ++ send_bytes g.out_value g.length)
  else
    .error (.buffer_read BUFFER_SIZE)

/-- One received byte: the body of the inner loop for a successful
`uart_read_bytes` (main.c:69-91) and, when the byte ends the frame, the rest
of the outer loop body (main.c:94-125). After a command or a completed frame
the next outer iteration starts with `len = 0`. -/
def uart_nvs_echo_rx (s : State) (rx : Nat) : Except Undefined (State × List Event) :=
  if rx = 0x3F then
    -- '?'
    .ok ({ s with len := 0 }, [.uart_write_bytes (DEVICE_ID.take (strlen DEVICE_ID))])
  else if rx = 0x31 then
    -- '1'
    let r := uart_send_stored_nvs_data s.nvs
    .ok ({ s with len := 0, nvs := r.1 }, r.2)
  else if BUFFER_SIZE ≤ s.len then
    .error (.buffer_write s.len)
  else
    let buffer := s.buffer.set s.len rx
    let len := s.len + 1
    if rx = 0x0A then
      if len = 0 then
        .ok ({ s with buffer := buffer, len := 0 }, [])
      else
        store_and_echo buffer len s.nvs
    else
      .ok ({ s with buffer := buffer, len := len }, [])

/-- Function `uart_nvs_echo_task` (main.c:55-127) run on the bytes that
`uart_read_bytes` delivers, from the point where the task waits for a byte. -/
def uart_nvs_echo_task : State → List Nat → Except Undefined (State × List Event)
  | s, [] => .ok (s, [])
  | s, rx :: rest =>
      match uart_nvs_echo_rx s rx with
      | .error e => .error e
      | .ok (s1, ev1) =>
          match uart_nvs_echo_task s1 rest with
          | .error e => .error e
          | .ok (s2, ev2) => .ok (s2, ev1 ++ ev2)

/-! ## Vocabulary of the specification -/

/-- A data byte: neither a control byte (`'?'`, `'1'`) nor the terminator. -/
def DataByte (b : Nat) : Prop := b ≠ 0x3F ∧ b ≠ 0x31 ∧ b ≠ 0x0A

instance (b : Nat) : Decidable (DataByte b) := by
  unfold DataByte; infer_instance

/-- A well-formed frame: 1 to 512 bytes, the last byte is the terminator
`0x0A`, no other byte is `0x0A`, and no byte is `'?'` (0x3F) or `'1'` (0x31). -/
def WellFormedFrame (F : List Nat) : Prop :=
  1 ≤ F.length ∧ F.length ≤ BUFFER_SIZE ∧ F.getLast? = some 0x0A ∧
    (∀ b ∈ F.dropLast, b ≠ 0x0A) ∧ (∀ b ∈ F, b ≠ 0x3F ∧ b ≠ 0x31)

instance (F : List Nat) : Decidable (WellFormedFrame F) := by
  unfold WellFormedFrame; infer_instance

/-- The calls and transmissions of one successful store-and-echo of frame `F`. -/
def echo_events (F : List Nat) : List Event :=
  [.nvs_open .NVS_READWRITE true, .nvs_set_blob F true, .nvs_commit true, .nvs_close true,
   .nvs_open .NVS_READONLY true, .nvs_get_blob true, .nvs_close true] ++
    F.map (fun b => Event.uart_write_bytes [b])

/-- A state at a frame start with a zero-filled buffer, an erased flash and no
injected failure. -/
def fresh : State :=
  { buffer := List.replicate BUFFER_SIZE 0, len := 0, nvs := ⟨.absent, none, []⟩ }

/-- What a command byte does to the store and which calls it makes: `'?'`
writes the identity string, `'1'` runs the retrieve action. -/
def command_response (C : Nat) (w : Nvs) : Nvs × List Event :=
  if C = 0x3F then (w, [.uart_write_bytes DEVICE_ID]) else uart_send_stored_nvs_data w

/-- The frames completed by a terminator in an input stream, in order, read
off the specification of the Frame Reader: a control byte (`'?'`, `'1'`)
discards the frame in progress, any other byte is appended to it, and the
terminator `0x0A` completes it. `cur` is the frame in progress. -/
def completed_frames (cur : List Nat) : List Nat → List (List Nat)
  | [] => []
  | b :: rest =>
      if b = 0x3F ∨ b = 0x31 then completed_frames [] rest
      else if b = 0x0A then (cur ++ [b]) :: completed_frames [] rest
      else completed_frames (cur ++ [b]) rest

/-- The last frame completed in an input stream, or `last` if none is. -/
def last_completed (cur : List Nat) (last : Option (List Nat)) : List Nat → Option (List Nat)
  | [] => last
  | b :: rest =>
      if b = 0x3F ∨ b = 0x31 then last_completed [] last rest
      else if b = 0x0A then last_completed [] (some (cur ++ [b])) rest
      else last_completed (cur ++ [b]) last rest

/-- No frame of the input stream exceeds the capacity of the buffer: a byte is
only ever appended to a frame in progress of fewer than 512 bytes. `n` is the
length of the frame in progress. -/
def frames_fit (n : Nat) : List Nat → Bool
  | [] => true
  | b :: rest =>
      if b = 0x3F ∨ b = 0x31 then frames_fit 0 rest
      else decide (n < BUFFER_SIZE) && (if b = 0x0A then frames_fit 0 rest else frames_fit (n + 1) rest)

/-- The values passed to `nvs_set_blob`, in order. -/
def written : List Event → List (List Nat)
  | [] => []
  | .nvs_set_blob value _ :: es => value :: written es
  | _ :: es => written es

/-- The stored record, if any, fits the 512-byte buffers of the firmware. -/
def RecordFits (w : Nvs) : Prop := ∀ r, w.record = some r → r.length ≤ BUFFER_SIZE

instance (w : Nvs) : Decidable (RecordFits w) := by
  unfold RecordFits Nvs.record
  cases w.flash with
  | absent => exact isTrue (fun r h => by cases h)
  | uart r =>
      cases r with
      | none => exact isTrue (fun r h => by cases h)
      | some v =>
          exact decidable_of_iff (v.length ≤ BUFFER_SIZE)
            ⟨fun h r hr => by cases hr; exact h, fun h => h v rfl⟩

/-- The write step of store-and-echo (main.c:101-105): open for writing,
`nvs_set_blob` of the frame, `nvs_commit`, `nvs_close`. The result is the
store afterwards. -/
def write_step (frame : List Nat) (w : Nvs) : Nvs :=
  (nvs_close (nvs_commit (nvs_set_blob frame (nvs_open .NVS_READWRITE w).2).2).2).2

/-- The read-back of store-and-echo (main.c:110-112): open for reading, then
`nvs_get_blob` into `buffer` with the length initialised to `sizeof(buffer)`. -/
def read_back (buffer : List Nat) (w : Nvs) : GetBlob :=
  nvs_get_blob buffer BUFFER_SIZE (nvs_open .NVS_READONLY w).2

/-- A call of the read path: `nvs_open` in read-only mode, `nvs_get_blob`,
`nvs_close` or a transport write. -/
def ReadPathCall (e : Event) : Prop :=
  (∃ ok, e = .nvs_open .NVS_READONLY ok) ∨ (∃ ok, e = .nvs_get_blob ok) ∨
    (∃ live, e = .nvs_close live) ∨ (∃ data, e = .uart_write_bytes data)

/-- A call to the store. -/
def StorageCall (e : Event) : Prop := ∀ data, e ≠ .uart_write_bytes data

/-! ## Basic lemmas -/

theorem transmitted_append (a b : List Event) :
    transmitted (a ++ b) = transmitted a ++ transmitted b := by
  induction a with
  | nil => rfl
  | cons e es ih => cases e <;> simp [transmitted, ih]

theorem transmitted_map_single (l : List Nat) :
    transmitted (l.map (fun b => Event.uart_write_bytes [b])) = l := by
  induction l with
  | nil => rfl
  | cons x xs ih => simp [transmitted, ih]

theorem transmitted_send_bytes (buffer : List Nat) (n : Nat) :
    transmitted (send_bytes buffer n) = buffer.take n :=
  transmitted_map_single _

theorem take_succ_set (l : List Nat) (n a : Nat) (h : n < l.length) :
    (l.set n a).take (n + 1) = l.take n ++ [a] := by
  rw [List.set_eq_take_append_cons_drop, if_pos h]
  have hl : (l.take n).length = n := by simp [List.length_take]; omega
  have : l.take n ++ a :: l.drop (n + 1) = (l.take n ++ [a]) ++ l.drop (n + 1) := by simp
  rw [this]
  apply List.take_left'
  simp [hl]

theorem wellFormedFrame_split (F : List Nat) (h : WellFormedFrame F) :
    ∃ body, F = body ++ [0x0A] ∧ (∀ b ∈ body, DataByte b) ∧ body.length < BUFFER_SIZE := by
  obtain ⟨h1, h2, h3, h4, h5⟩ := h
  refine ⟨F.dropLast, ?_, ?_, ?_⟩
  · exact (List.dropLast_append_getLast? _ h3).symm
  · intro b hb
    exact ⟨(h5 b (List.mem_of_mem_dropLast hb)).1, (h5 b (List.mem_of_mem_dropLast hb)).2, h4 b hb⟩
  · simp only [List.length_dropLast]; omega

theorem wellFormedFrame_of_body (body : List Nat) (hd : ∀ b ∈ body, DataByte b)
    (hl : body.length < BUFFER_SIZE) : WellFormedFrame (body ++ [0x0A]) := by
  refine ⟨by simp, by simp; omega, by simp, ?_, ?_⟩
  · intro b hb
    rw [List.dropLast_concat] at hb
    exact (hd b hb).2.2
  · intro b hb
    rcases List.mem_append.1 hb with hb | hb
    · exact ⟨(hd b hb).1, (hd b hb).2.1⟩
    · simp at hb; subst hb; decide

/-- Running the task on a concatenated input is running it on the parts. -/
theorem task_append (a b : List Nat) (s s1 s2 : State) (e1 e2 : List Event)
    (ha : uart_nvs_echo_task s a = .ok (s1, e1))
    (hb : uart_nvs_echo_task s1 b = .ok (s2, e2)) :
    uart_nvs_echo_task s (a ++ b) = .ok (s2, e1 ++ e2) := by
  induction a generalizing s e1 with
  | nil =>
      simp only [uart_nvs_echo_task, Except.ok.injEq, Prod.mk.injEq] at ha
      obtain ⟨rfl, rfl⟩ := ha
      simpa using hb
  | cons x xs ih =>
      simp only [uart_nvs_echo_task, List.cons_append] at ha ⊢
      cases hx : uart_nvs_echo_rx s x with
      | error e => simp [hx] at ha
      | ok r =>
          obtain ⟨sx, ex⟩ := r
          simp only [hx] at ha ⊢
          cases hr : uart_nvs_echo_task sx xs with
          | error e => simp [hr] at ha
          | ok r2 =>
              obtain ⟨sy, ey⟩ := r2
              simp only [hr, Except.ok.injEq, Prod.mk.injEq] at ha
              obtain ⟨rfl, rfl⟩ := ha
              simp [ih sx ey hr]

/-- A data byte within the capacity is appended to the frame in progress. -/
theorem rx_data (s : State) (b : Nat) (hb : DataByte b) (hlen : s.len < BUFFER_SIZE) :
    uart_nvs_echo_rx s b = .ok ({ s with buffer := s.buffer.set s.len b, len := s.len + 1 }, []) := by
  obtain ⟨h1, h2, h3⟩ := hb
  have : ¬ BUFFER_SIZE ≤ s.len := by omega
  simp [uart_nvs_echo_rx, h1, h2, h3, this]

/-- Accumulation: data bytes that fit are written one after the other at
`buffer[len]`, nothing is stored and nothing is transmitted. -/
theorem task_accumulate (body : List Nat) (s : State) (hd : ∀ b ∈ body, DataByte b)
    (hfit : s.len + body.length ≤ BUFFER_SIZE) (hbuf : s.buffer.length = BUFFER_SIZE) :
    uart_nvs_echo_task s body =
      .ok ({ buffer := s.buffer.take s.len ++ body ++ s.buffer.drop (s.len + body.length),
             len := s.len + body.length, nvs := s.nvs }, []) := by
  induction body generalizing s with
  | nil => simp [uart_nvs_echo_task]
  | cons x xs ih =>
      simp only [List.length_cons] at hfit
      have hx : DataByte x := hd x (List.mem_cons_self _ _)
      have hlt : s.len < BUFFER_SIZE := by omega
      have hlt2 : s.len < s.buffer.length := by omega
      simp only [uart_nvs_echo_task, rx_data s x hx hlt]
      rw [ih _ (fun b hb => hd b (List.mem_cons_of_mem _ hb)) (by simp; omega) (by simp [hbuf])]
      simp only [List.nil_append, take_succ_set _ _ _ hlt2, List.length_cons]
      rw [List.drop_set_of_lt _ _ (by omega)]
      simp [Nat.add_assoc, Nat.add_comm 1]

/-! ## The store when no failure is injected -/

/-- With no injected failure, store-and-echo stores the frame `buffer[0..len)`,
reads it back into the same place and transmits it byte by byte. -/
theorem store_and_echo_ok (buffer : List Nat) (len : Nat) (w : Nvs) (h : NoFaults w)
    (hlen : len ≤ BUFFER_SIZE) (hbuf : buffer.length = BUFFER_SIZE) :
    store_and_echo buffer len w =
      .ok ({ buffer := buffer, len := 0,
             nvs := { flash := .uart (some (buffer.take len)), handle := none,
                      faults := w.faults.drop 5 } },
           [.nvs_open .NVS_READWRITE true, .nvs_set_blob (buffer.take len) true,
            .nvs_commit true, .nvs_close true, .nvs_open .NVS_READONLY true,
            .nvs_get_blob true, .nvs_close true] ++ send_bytes buffer len) := by
  obtain ⟨flash, handle, faults⟩ := w
  have hl : (buffer.take len).length = len := by simp [List.length_take]; omega
  have hnl : ¬ BUFFER_SIZE < len := by omega
  have hmin : min len buffer.length = len := by omega
  have hmin2 : min len buffer.length ≤ BUFFER_SIZE := by omega
  rcases faults with _ | ⟨a, _ | ⟨b, _ | ⟨c, _ | ⟨d, _ | ⟨e, rest⟩⟩⟩⟩⟩ <;>
    simp [NoFaults] at h <;>
    cases flash <;>
    simp [store_and_echo, nvs_open, nvs_set_blob, nvs_commit, nvs_close, nvs_get_blob,
      Nvs.injected, Nvs.consume, h, hl, hnl, hmin, hmin2]

/-- The terminator within the capacity is appended and completes the frame. -/
theorem rx_terminator (s : State) (hlen : s.len < BUFFER_SIZE) :
    uart_nvs_echo_rx s 0x0A = store_and_echo (s.buffer.set s.len 0x0A) (s.len + 1) s.nvs := by
  have : ¬ BUFFER_SIZE ≤ s.len := by omega
  simp [uart_nvs_echo_rx, this]

theorem transmitted_echo_events (F : List Nat) : transmitted (echo_events F) = F := by
  simp [echo_events, transmitted, transmitted_map_single]

/-- A whole frame (data bytes, then the terminator) received while `len`
bytes are accumulated, with no injected failure: the frame in progress,
extended by the new bytes, is stored and echoed, and the next frame starts. -/
theorem task_frame (body : List Nat) (s : State) (hd : ∀ b ∈ body, DataByte b)
    (hfit : s.len + body.length < BUFFER_SIZE) (hbuf : s.buffer.length = BUFFER_SIZE)
    (hnf : NoFaults s.nvs) :
    uart_nvs_echo_task s (body ++ [0x0A]) =
      .ok ({ buffer := s.buffer.take s.len ++ body ++ [0x0A] ++
                         s.buffer.drop (s.len + body.length + 1),
             len := 0,
             nvs := { flash := .uart (some (s.buffer.take s.len ++ body ++ [0x0A])),
                      handle := none, faults := s.nvs.faults.drop 5 } },
           echo_events (s.buffer.take s.len ++ body ++ [0x0A])) := by
  have hacc := task_accumulate body s hd (by omega) hbuf
  have hlt : s.len < s.buffer.length := by omega
  have hpre : (s.buffer.take s.len ++ body).length = s.len + body.length := by
    simp [List.length_take]; omega
  have hdrop : (s.buffer.drop (s.len + body.length)).length = BUFFER_SIZE - (s.len + body.length) := by
    simp [hbuf]
  refine task_append body [0x0A] s _ _ [] _ hacc ?_
  simp only [uart_nvs_echo_task]
  rw [rx_terminator _ (by simpa using hfit)]
  simp only []
  have hset : (s.buffer.take s.len ++ body ++ s.buffer.drop (s.len + body.length)).set
      (s.len + body.length) 0x0A =
      s.buffer.take s.len ++ body ++ [0x0A] ++ s.buffer.drop (s.len + body.length + 1) := by
    rw [List.set_append_right _ _ (by omega), hpre, Nat.sub_self]
    cases hdr : s.buffer.drop (s.len + body.length) with
    | nil => rw [hdr] at hdrop; simp at hdrop; omega
    | cons y ys =>
        have : s.buffer.drop (s.len + body.length + 1) = ys := by
          rw [← List.drop_drop, hdr]; rfl
        simp [this]
  rw [hset]
  have htake : (s.buffer.take s.len ++ body ++ [0x0A] ++
      s.buffer.drop (s.len + body.length + 1)).take (s.len + body.length + 1) =
      s.buffer.take s.len ++ body ++ [0x0A] := by
    apply List.take_left'
    simp [List.length_take]; omega
  rw [store_and_echo_ok _ _ _ hnf (by omega) (by simp [hpre, hbuf]; omega)]
  simp only [send_bytes, echo_events, htake]
  simp

/-- A well-formed frame received at a frame start, with no injected failure. -/
theorem task_frame_fresh (F : List Nat) (s : State) (hF : WellFormedFrame F)
    (hlen : s.len = 0) (hbuf : s.buffer.length = BUFFER_SIZE) (hnf : NoFaults s.nvs) :
    uart_nvs_echo_task s F =
      .ok ({ buffer := F ++ s.buffer.drop F.length, len := 0,
             nvs := { flash := .uart (some F), handle := none,
                      faults := s.nvs.faults.drop 5 } },
           echo_events F) := by
  obtain ⟨body, rfl, hd, hl⟩ := wellFormedFrame_split F hF
  have := task_frame body s hd (by omega) hbuf hnf
  simpa [hlen] using this

/-! ## The retrieve action -/

theorem send_bytes_append_left (v t : List Nat) :
    send_bytes (v ++ t) v.length = v.map (fun b => Event.uart_write_bytes [b]) := by
  simp [send_bytes]

/-- The content of the local buffer of `uart_send_stored_nvs_data` on entry
has no influence on what the function does. -/
theorem uart_send_stored_nvs_data_on_indep (b1 b2 : List Nat) (w : Nvs) :
    uart_send_stored_nvs_data_on b1 w = uart_send_stored_nvs_data_on b2 w := by
  obtain ⟨flash, handle, faults⟩ := w
  rcases faults with _ | ⟨a, _ | ⟨b, rest⟩⟩ <;>
    rcases flash with _ | (_ | v) <;>
    (try cases a) <;> (try cases b) <;>
    simp [uart_send_stored_nvs_data_on, nvs_open, nvs_get_blob, nvs_close, Nvs.injected,
      Nvs.consume] <;>
    split <;> simp [send_bytes_append_left]

/-- The retrieve action with no injected failure: the stored record is
transmitted if there is one of at most `sizeof(buffer)` bytes, nothing is
transmitted otherwise; the flash is not modified. -/
theorem retrieve_noFaults (w : Nvs) (h : NoFaults w) :
    transmitted (uart_send_stored_nvs_data w).2 =
        (match w.record with
         | some v => if v.length ≤ BUFFER_SIZE then v else []
         | none => []) ∧
      (uart_send_stored_nvs_data w).1.flash = w.flash ∧
      NoFaults (uart_send_stored_nvs_data w).1 := by
  obtain ⟨flash, handle, faults⟩ := w
  have key : ∀ v : List Nat, ¬ BUFFER_SIZE < v.length → 0 < v.length →
      transmitted (send_bytes (v ++ List.replicate (BUFFER_SIZE - v.length) 0) v.length) = v := by
    intro v _ _
    rw [send_bytes_append_left, transmitted_map_single]
  rcases faults with _ | ⟨a, _ | ⟨b, rest⟩⟩ <;>
    simp [NoFaults] at h <;>
    rcases flash with _ | (_ | v)
  all_goals first
    | (simp [uart_send_stored_nvs_data, uart_send_stored_nvs_data_on, nvs_open, nvs_get_blob,
        nvs_close, Nvs.injected, Nvs.consume, Nvs.record, NoFaults, h, transmitted]; done)
    | (rcases Nat.lt_or_ge BUFFER_SIZE v.length with hv | hv
       · have hv2 : ¬ v.length ≤ BUFFER_SIZE := by omega
         simp [uart_send_stored_nvs_data, uart_send_stored_nvs_data_on, nvs_open, nvs_get_blob,
           nvs_close, Nvs.injected, Nvs.consume, Nvs.record, NoFaults, h, transmitted, hv, hv2]
       · have hv2 : ¬ BUFFER_SIZE < v.length := by omega
         rcases Nat.eq_zero_or_pos v.length with hpos | hpos
         · have h0 : v = [] := List.length_eq_zero.1 hpos
           subst h0
           simp [uart_send_stored_nvs_data, uart_send_stored_nvs_data_on, nvs_open, nvs_get_blob,
             nvs_close, Nvs.injected, Nvs.consume, Nvs.record, NoFaults, h, transmitted]
         · simp [uart_send_stored_nvs_data, uart_send_stored_nvs_data_on, nvs_open, nvs_get_blob,
             nvs_close, Nvs.injected, Nvs.consume, Nvs.record, NoFaults, h, transmitted, hv, hv2,
             hpos, key v hv2 hpos])

/-- The command byte `'1'` runs the retrieve action and starts a new frame. -/
theorem rx_retrieve (s : State) :
    uart_nvs_echo_rx s 0x31 =
      .ok ({ s with len := 0, nvs := (uart_send_stored_nvs_data s.nvs).1 },
           (uart_send_stored_nvs_data s.nvs).2) := by
  simp [uart_nvs_echo_rx]

/-- The command byte `'?'` writes the identity string and starts a new frame. -/
theorem rx_identify (s : State) :
    uart_nvs_echo_rx s 0x3F = .ok ({ s with len := 0 }, [.uart_write_bytes DEVICE_ID]) := by
  have h : DEVICE_ID.take (strlen DEVICE_ID) = DEVICE_ID := by decide
  simp [uart_nvs_echo_rx, h]

theorem fresh_buffer_length : fresh.buffer.length = BUFFER_SIZE := by
  simp [fresh]

/-! ## Command bytes -/

theorem rx_command (t : State) (C : Nat) (hC : C = 0x3F ∨ C = 0x31) :
    uart_nvs_echo_rx t C =
      .ok ({ t with len := 0, nvs := (command_response C t.nvs).1 },
           (command_response C t.nvs).2) := by
  rcases hC with rfl | rfl
  · simpa [command_response] using rx_identify t
  · simpa [command_response] using rx_retrieve t

theorem command_response_noFaults (C : Nat) (w : Nvs) (h : NoFaults w) :
    NoFaults (command_response C w).1 := by
  unfold command_response
  split
  · exact h
  · exact (retrieve_noFaults w h).2.2

/-- The retrieve action never writes to the store. -/
theorem retrieve_no_set_blob (w : Nvs) (v : List Nat) (ok : Bool) :
    Event.nvs_set_blob v ok ∉ (uart_send_stored_nvs_data w).2 := by
  have hs : ∀ (buf : List Nat) (n : Nat), Event.nvs_set_blob v ok ∉ send_bytes buf n := by
    intro buf n hm
    obtain ⟨b, -, hb⟩ := List.mem_map.1 hm
    cases hb
  unfold uart_send_stored_nvs_data uart_send_stored_nvs_data_on
  simp only []
  split
  · simp
  · split <;> simp [hs]

theorem command_no_set_blob (C : Nat) (w : Nvs) (v : List Nat) (ok : Bool) :
    Event.nvs_set_blob v ok ∉ (command_response C w).2 := by
  unfold command_response
  split
  · simp
  · exact retrieve_no_set_blob w v ok

/-- A command byte followed by a well-formed frame, with no injected failure:
the result depends on the reader state only through the tail of the buffer. -/
theorem task_command_frame (t : State) (C : Nat) (F : List Nat) (hC : C = 0x3F ∨ C = 0x31)
    (hF : WellFormedFrame F) (hbuf : t.buffer.length = BUFFER_SIZE) (hnf : NoFaults t.nvs) :
    uart_nvs_echo_task t (C :: F) =
      .ok ({ buffer := F ++ t.buffer.drop F.length, len := 0,
             nvs := ⟨.uart (some F), none, (command_response C t.nvs).1.faults.drop 5⟩ },
           (command_response C t.nvs).2 ++ echo_events F) := by
  have h1 : uart_nvs_echo_task t [C] =
      .ok ({ t with len := 0, nvs := (command_response C t.nvs).1 },
           (command_response C t.nvs).2) := by
    simp [uart_nvs_echo_task, rx_command t C hC]
  have h2 := task_frame_fresh F { t with len := 0, nvs := (command_response C t.nvs).1 } hF rfl
    hbuf (command_response_noFaults C t.nvs hnf)
  exact task_append [C] F t _ _ _ _ h1 h2

/-! ## The frames of an input stream -/

theorem last_completed_eq (cur : List Nat) (last : Option (List Nat)) (input : List Nat) :
    last_completed cur last input =
      match (completed_frames cur input).getLast? with
      | some F => some F
      | none => last := by
  induction input generalizing cur last with
  | nil => simp [last_completed, completed_frames]
  | cons b rest ih =>
      simp only [last_completed, completed_frames]
      split
      · exact ih _ _
      · split
        · rw [ih, List.getLast?_cons]
          cases (completed_frames [] rest).getLast? <;> simp
        · exact ih _ _

theorem written_append (a b : List Event) : written (a ++ b) = written a ++ written b := by
  induction a with
  | nil => rfl
  | cons e es ih => cases e <;> simp [written, ih]

theorem written_eq_nil (e : List Event) (h : ∀ v ok, Event.nvs_set_blob v ok ∉ e) :
    written e = [] := by
  induction e with
  | nil => rfl
  | cons x xs ih =>
      have hxs : ∀ v ok, Event.nvs_set_blob v ok ∉ xs :=
        fun v ok hm => h v ok (List.mem_cons_of_mem _ hm)
      cases x with
      | nvs_set_blob v ok => exact absurd (List.mem_cons_self _ _) (h v ok)
      | _ => simpa [written] using ih hxs

theorem written_echo_events (F : List Nat) : written (echo_events F) = [F] := by
  have : written (F.map (fun b => Event.uart_write_bytes [b])) = [] := by
    apply written_eq_nil
    intro v ok hm
    obtain ⟨b, -, hb⟩ := List.mem_map.1 hm
    cases hb
  simp [echo_events, written, this]

theorem command_response_flash (C : Nat) (w : Nvs) (h : NoFaults w) :
    (command_response C w).1.flash = w.flash := by
  unfold command_response
  split
  · rfl
  · exact (retrieve_noFaults w h).2.1

/-- The terminator within the capacity, with no injected failure: the frame
in progress and the terminator are stored and echoed. -/
theorem rx_terminator_ok (s : State) (hlen : s.len < BUFFER_SIZE)
    (hbuf : s.buffer.length = BUFFER_SIZE) (hnf : NoFaults s.nvs) :
    uart_nvs_echo_rx s 0x0A =
      .ok ({ buffer := s.buffer.set s.len 0x0A, len := 0,
             nvs := ⟨.uart (some (s.buffer.take s.len ++ [0x0A])), none,
                      s.nvs.faults.drop 5⟩ },
           echo_events (s.buffer.take s.len ++ [0x0A])) := by
  have hlt2 : s.len < s.buffer.length := by omega
  rw [rx_terminator s hlen, store_and_echo_ok _ _ _ hnf (by omega) (by simp [hbuf]),
    send_bytes, take_succ_set _ _ _ hlt2]
  rfl

/-- With no injected failure and frames that fit, the task returns, the values
written to the store are the completed frames, and the stored record is the
last of them (the record of the start if there is none). -/
theorem task_noFaults (input : List Nat) (s : State) (hbuf : s.buffer.length = BUFFER_SIZE)
    (hnf : NoFaults s.nvs) (hfit : frames_fit s.len input = true) :
    ∃ s1 ev, uart_nvs_echo_task s input = .ok (s1, ev) ∧
      s1.nvs.record = last_completed (s.buffer.take s.len) s.nvs.record input ∧
      written ev = completed_frames (s.buffer.take s.len) input := by
  induction input generalizing s with
  | nil => exact ⟨s, [], rfl, rfl, rfl⟩
  | cons b rest ih =>
      by_cases hC : b = 0x3F ∨ b = 0x31
      · simp only [frames_fit, if_pos hC] at hfit
        obtain ⟨s1, ev, hrun, hrec, hwr⟩ :=
          ih { s with len := 0, nvs := (command_response b s.nvs).1 } hbuf
            (command_response_noFaults b s.nvs hnf) hfit
        refine ⟨s1, (command_response b s.nvs).2 ++ ev, ?_, ?_, ?_⟩
        · simp [uart_nvs_echo_task, rx_command s b hC, hrun]
        · simp only [last_completed, if_pos hC]
          simpa [Nvs.record, command_response_flash b s.nvs hnf] using hrec
        · simp only [completed_frames, if_pos hC, written_append]
          rw [written_eq_nil _ (command_no_set_blob b s.nvs)]
          simpa using hwr
      · simp only [frames_fit, if_neg hC, Bool.and_eq_true, decide_eq_true_eq] at hfit
        obtain ⟨hlt, hfit⟩ := hfit
        have hlt2 : s.len < s.buffer.length := by omega
        by_cases hT : b = 0x0A
        · subst hT
          simp only [if_true] at hfit
          have hstep := rx_terminator_ok s hlt hbuf hnf
          obtain ⟨s1, ev, hrun, hrec, hwr⟩ :=
            ih { buffer := s.buffer.set s.len 0x0A, len := 0,
                 nvs := ⟨.uart (some (s.buffer.take s.len ++ [0x0A])), none,
                          s.nvs.faults.drop 5⟩ }
              (by simp [hbuf]) (fun x hx => hnf x (List.mem_of_mem_drop hx)) hfit
          refine ⟨s1, echo_events (s.buffer.take s.len ++ [0x0A]) ++ ev, ?_, ?_, ?_⟩
          · simp only [uart_nvs_echo_task, hstep, hrun]
          · simp only [last_completed, if_neg hC, if_true]
            simpa [Nvs.record] using hrec
          · simp only [completed_frames, if_neg hC, if_true, written_append,
              written_echo_events]
            simpa using hwr
        · simp only [if_neg hT] at hfit
          have hD : DataByte b := ⟨fun h => hC (Or.inl h), fun h => hC (Or.inr h), hT⟩
          obtain ⟨s1, ev, hrun, hrec, hwr⟩ :=
            ih { s with buffer := s.buffer.set s.len b, len := s.len + 1 } (by simp [hbuf]) hnf
              hfit
          refine ⟨s1, ev, ?_, ?_, ?_⟩
          · simp [uart_nvs_echo_task, rx_data s b hD hlt, hrun]
          · simp only [last_completed, if_neg hC, if_neg hT]
            simpa [take_succ_set _ _ _ hlt2] using hrec
          · simp only [completed_frames, if_neg hC, if_neg hT]
            simpa [take_succ_set _ _ _ hlt2] using hwr

/-! ## The store under an arbitrary failure schedule -/

theorem nvs_open_record (mode : OpenMode) (w : Nvs) : (nvs_open mode w).2.record = w.record := by
  obtain ⟨flash, handle, faults⟩ := w
  rcases faults with _ | ⟨a, rest⟩ <;> (try cases a) <;> cases mode <;> cases flash <;>
    simp [nvs_open, Nvs.injected, Nvs.consume, Nvs.record]

theorem nvs_get_blob_flash (b : List Nat) (n : Nat) (w : Nvs) :
    (nvs_get_blob b n w).nvs.flash = w.flash := by
  unfold nvs_get_blob
  simp only []
  split
  · rfl
  · split
    · split <;> rfl
    · rfl

theorem nvs_get_blob_record (b : List Nat) (n : Nat) (w : Nvs) :
    (nvs_get_blob b n w).nvs.record = w.record := by
  simp [Nvs.record, nvs_get_blob_flash]

theorem nvs_close_record (w : Nvs) : (nvs_close w).2.record = w.record := rfl

theorem nvs_get_blob_length_le (b : List Nat) (n : Nat) (w : Nvs) (hrec : RecordFits w)
    (hn : n ≤ BUFFER_SIZE) : (nvs_get_blob b n w).length ≤ BUFFER_SIZE := by
  unfold nvs_get_blob
  simp only []
  split
  · exact hn
  · split
    · rename_i v hh hfl
      have := hrec v (by simp [Nvs.record, hfl])
      split <;> exact this
    · exact hn

theorem nvs_get_blob_out_length (b : List Nat) (n : Nat) (w : Nvs) (hn : n ≤ b.length) :
    (nvs_get_blob b n w).out_value.length = b.length := by
  unfold nvs_get_blob
  simp only []
  split
  · rfl
  · split
    · split
      · rfl
      · simp; omega
    · rfl

/-- Whatever fails, after the write step (open, set_blob, commit) the stored
record is the one from before or the frame just written. -/
theorem write_phase_record (frame : List Nat) (w : Nvs) :
    (nvs_commit (nvs_set_blob frame (nvs_open .NVS_READWRITE w).2).2).2.record = w.record ∨
    (nvs_commit (nvs_set_blob frame (nvs_open .NVS_READWRITE w).2).2).2.record = some frame := by
  obtain ⟨flash, handle, faults⟩ := w
  rcases faults with _ | ⟨a, _ | ⟨b, _ | ⟨c, rest⟩⟩⟩ <;>
    rcases flash with _ | r <;>
    (try cases a) <;> (try cases b) <;> (try cases c) <;>
    simp [nvs_open, nvs_set_blob, nvs_commit, Nvs.injected, Nvs.consume, Nvs.record]

/-- The retrieve action leaves the stored record as it is, whatever fails. -/
theorem retrieve_record (w : Nvs) : (uart_send_stored_nvs_data w).1.record = w.record := by
  unfold uart_send_stored_nvs_data uart_send_stored_nvs_data_on
  simp only []
  split
  · exact nvs_open_record _ _
  · split <;>
      rw [nvs_close_record, nvs_get_blob_record, nvs_open_record]

theorem command_response_record (C : Nat) (w : Nvs) :
    (command_response C w).1.record = w.record := by
  unfold command_response
  split
  · rfl
  · exact retrieve_record w

/-- Whatever fails, a store-and-echo that returns has made exactly one call of
`nvs_set_blob`, with the frame `buffer[0..len)`, and leaves a 512-byte buffer
and an empty frame in progress. -/
theorem store_and_echo_inv (buffer : List Nat) (len : Nat) (w : Nvs) (t : State)
    (e : List Event) (hbuf : buffer.length = BUFFER_SIZE)
    (h : store_and_echo buffer len w = .ok (t, e)) :
    t.buffer.length = BUFFER_SIZE ∧ t.len = 0 ∧ written e = [buffer.take len] := by
  unfold store_and_echo at h
  simp only [] at h
  split at h
  · simp only [Except.ok.injEq, Prod.mk.injEq] at h
    obtain ⟨rfl, rfl⟩ := h
    refine ⟨?_, rfl, ?_⟩
    · simp only []
      rw [nvs_get_blob_out_length _ _ _ (by omega), hbuf]
    · rw [written_append, written_eq_nil (send_bytes _ _)]
      · rfl
      · intro v ok hm
        obtain ⟨x, -, hx⟩ := List.mem_map.1 hm
        cases hx
  · cases h

/-- Whatever fails, store-and-echo returns when the stored record fits the
buffer, and the stored record still fits afterwards. -/
theorem store_and_echo_total (buffer : List Nat) (len : Nat) (w : Nvs)
    (hlen : len ≤ BUFFER_SIZE) (hrec : RecordFits w) :
    ∃ t e, store_and_echo buffer len w = .ok (t, e) ∧ RecordFits t.nvs := by
  have hw : RecordFits (nvs_commit (nvs_set_blob (buffer.take len)
      (nvs_open .NVS_READWRITE w).2).2).2 := by
    intro r hr
    rcases write_phase_record (buffer.take len) w with h | h
    · exact hrec r (h ▸ hr)
    · rw [h] at hr
      cases hr
      simp [List.length_take]; omega
  have hr5 : RecordFits (nvs_open .NVS_READONLY (nvs_close (nvs_commit (nvs_set_blob
      (buffer.take len) (nvs_open .NVS_READWRITE w).2).2).2).2).2 := by
    intro r hr
    rw [nvs_open_record, nvs_close_record] at hr
    exact hw r hr
  have hg := nvs_get_blob_length_le buffer BUFFER_SIZE _ hr5 (Nat.le_refl _)
  unfold store_and_echo
  simp only []
  rw [if_pos hg]
  refine ⟨_, _, rfl, ?_⟩
  intro r hr
  simp only [] at hr
  rw [nvs_close_record, nvs_get_blob_record] at hr
  exact hr5 r hr

theorem task_cons_ok (s s1 : State) (b : Nat) (rest : List Nat) (ev : List Event)
    (h : uart_nvs_echo_task s (b :: rest) = .ok (s1, ev)) :
    ∃ t e ev2, uart_nvs_echo_rx s b = .ok (t, e) ∧
      uart_nvs_echo_task t rest = .ok (s1, ev2) ∧ ev = e ++ ev2 := by
  simp only [uart_nvs_echo_task] at h
  cases hx : uart_nvs_echo_rx s b with
  | error x => simp [hx] at h
  | ok r =>
      obtain ⟨t, e⟩ := r
      simp only [hx] at h
      cases hr : uart_nvs_echo_task t rest with
      | error x => simp [hr] at h
      | ok r2 =>
          obtain ⟨s2, ev2⟩ := r2
          simp only [hr, Except.ok.injEq, Prod.mk.injEq] at h
          obtain ⟨rfl, rfl⟩ := h
          exact ⟨t, e, ev2, rfl, hr, rfl⟩

/-- Whatever fails in the store, a run that returns has passed exactly the
completed frames to `nvs_set_blob`, in order. -/
theorem task_written (input : List Nat) (s s1 : State) (ev : List Event)
    (hbuf : s.buffer.length = BUFFER_SIZE)
    (h : uart_nvs_echo_task s input = .ok (s1, ev)) :
    written ev = completed_frames (s.buffer.take s.len) input := by
  induction input generalizing s ev with
  | nil =>
      simp only [uart_nvs_echo_task, Except.ok.injEq, Prod.mk.injEq] at h
      obtain ⟨-, rfl⟩ := h
      rfl
  | cons b rest ih =>
      obtain ⟨t, e, ev2, hx, hr, rfl⟩ := task_cons_ok s s1 b rest ev h
      rw [written_append]
      by_cases hC : b = 0x3F ∨ b = 0x31
      · rw [rx_command s b hC] at hx
        simp only [Except.ok.injEq, Prod.mk.injEq] at hx
        obtain ⟨rfl, rfl⟩ := hx
        have := ih { s with len := 0, nvs := (command_response b s.nvs).1 } ev2 hbuf hr
        simp only [completed_frames, if_pos hC]
        rw [written_eq_nil _ (command_no_set_blob b s.nvs)]
        simpa using this
      · by_cases hlt : s.len < BUFFER_SIZE
        · have hlt2 : s.len < s.buffer.length := by omega
          by_cases hT : b = 0x0A
          · subst hT
            rw [rx_terminator s hlt] at hx
            obtain ⟨htb, htl, hw⟩ := store_and_echo_inv _ _ _ _ _ (by simp [hbuf]) hx
            have := ih t ev2 htb hr
            simp only [completed_frames, if_neg hC, if_true]
            rw [hw, this, htl, take_succ_set _ _ _ hlt2]
            simp
          · have hD : DataByte b := ⟨fun h => hC (Or.inl h), fun h => hC (Or.inr h), hT⟩
            rw [rx_data s b hD hlt] at hx
            simp only [Except.ok.injEq, Prod.mk.injEq] at hx
            obtain ⟨rfl, rfl⟩ := hx
            have := ih { s with buffer := s.buffer.set s.len b, len := s.len + 1 } ev2
              (by simp [hbuf]) hr
            simp only [completed_frames, if_neg hC, if_neg hT]
            simpa [take_succ_set _ _ _ hlt2, written] using this
        · exfalso
          have hge : BUFFER_SIZE ≤ s.len := by omega
          have h1 : b ≠ 0x3F := fun h => hC (Or.inl h)
          have h2 : b ≠ 0x31 := fun h => hC (Or.inr h)
          simp [uart_nvs_echo_rx, h1, h2, hge] at hx

/-- Whatever fails in the store, the task returns on an input whose frames
fit, provided the record stored at the start fits the buffer. -/
theorem task_total (input : List Nat) (s : State) (hbuf : s.buffer.length = BUFFER_SIZE)
    (hrec : RecordFits s.nvs) (hfit : frames_fit s.len input = true) :
    ∃ s1 ev, uart_nvs_echo_task s input = .ok (s1, ev) := by
  induction input generalizing s with
  | nil => exact ⟨s, [], rfl⟩
  | cons b rest ih =>
      by_cases hC : b = 0x3F ∨ b = 0x31
      · simp only [frames_fit, if_pos hC] at hfit
        obtain ⟨s1, ev, hrun⟩ :=
          ih { s with len := 0, nvs := (command_response b s.nvs).1 } hbuf
            (fun r hr => hrec r (command_response_record b s.nvs ▸ hr)) hfit
        exact ⟨s1, (command_response b s.nvs).2 ++ ev,
          by simp only [uart_nvs_echo_task, rx_command s b hC, hrun]⟩
      · simp only [frames_fit, if_neg hC, Bool.and_eq_true, decide_eq_true_eq] at hfit
        obtain ⟨hlt, hfit⟩ := hfit
        by_cases hT : b = 0x0A
        · subst hT
          simp only [if_true] at hfit
          obtain ⟨t, e, hx, htrec⟩ := store_and_echo_total (s.buffer.set s.len 0x0A) (s.len + 1)
            s.nvs (by omega) hrec
          obtain ⟨htb, htl, -⟩ := store_and_echo_inv _ _ _ _ _ (by simp [hbuf]) hx
          obtain ⟨s1, ev, hrun⟩ := ih t htb htrec (by rw [htl]; exact hfit)
          exact ⟨s1, e ++ ev, by simp only [uart_nvs_echo_task, rx_terminator s hlt, hx, hrun]⟩
        · simp only [if_neg hT] at hfit
          have hD : DataByte b := ⟨fun h => hC (Or.inl h), fun h => hC (Or.inr h), hT⟩
          obtain ⟨s1, ev, hrun⟩ :=
            ih { s with buffer := s.buffer.set s.len b, len := s.len + 1 } (by simp [hbuf])
              hrec hfit
          exact ⟨s1, [] ++ ev, by simp only [uart_nvs_echo_task, rx_data s b hD hlt, hrun]⟩

/-- Every completed frame of an input whose frames fit is well-formed. -/
theorem completed_frames_wellFormed (input cur : List Nat) (hcur : ∀ b ∈ cur, DataByte b)
    (hfit : frames_fit cur.length input = true) :
    ∀ F ∈ completed_frames cur input, WellFormedFrame F := by
  induction input generalizing cur with
  | nil => intro F hF; simp [completed_frames] at hF
  | cons b rest ih =>
      by_cases hC : b = 0x3F ∨ b = 0x31
      · simp only [frames_fit, if_pos hC] at hfit
        simp only [completed_frames, if_pos hC]
        exact ih [] (fun b hb => by cases hb) hfit
      · simp only [frames_fit, if_neg hC, Bool.and_eq_true, decide_eq_true_eq] at hfit
        obtain ⟨hlt, hfit⟩ := hfit
        by_cases hT : b = 0x0A
        · subst hT
          simp only [if_true] at hfit
          simp only [completed_frames, if_neg hC, if_true]
          intro F hF
          rcases List.mem_cons.1 hF with rfl | hF
          · exact wellFormedFrame_of_body cur hcur hlt
          · exact ih [] (fun b hb => by cases hb) hfit F hF
        · simp only [if_neg hT] at hfit
          simp only [completed_frames, if_neg hC, if_neg hT]
          have hD : DataByte b := ⟨fun h => hC (Or.inl h), fun h => hC (Or.inr h), hT⟩
          refine ih (cur ++ [b]) ?_ (by simpa using hfit)
          intro x hx
          rcases List.mem_append.1 hx with hx | hx
          · exact hcur x hx
          · simp at hx; subst hx; exact hD

theorem mem_written (ev : List Event) (v : List Nat) (ok : Bool)
    (h : Event.nvs_set_blob v ok ∈ ev) : v ∈ written ev := by
  induction ev with
  | nil => cases h
  | cons x xs ih =>
      rcases List.mem_cons.1 h with rfl | h2
      · simp [written]
      · have := ih h2
        cases x <;> simp [written, this]

/-- A failed write step followed by a successful read-back: the record stored
before is still stored and it is what the echo loop transmits. -/
theorem store_and_echo_stale (buffer : List Nat) (len : Nat) (w : Nvs) (R : List Nat)
    (hrec : w.record = some R) (hR : R.length ≤ BUFFER_SIZE)
    (hfail : w.faults.getD 0 false = true ∨ w.faults.getD 1 false = true ∨
      w.faults.getD 2 false = true)
    (hread : w.faults.getD 3 false = false ∧ w.faults.getD 4 false = false) :
    ∃ t ev, store_and_echo buffer len w = .ok (t, ev) ∧
      (Event.nvs_open .NVS_READWRITE false ∈ ev ∨ Event.nvs_set_blob (buffer.take len) false ∈ ev ∨
        Event.nvs_commit false ∈ ev) ∧
      Event.nvs_get_blob true ∈ ev ∧ transmitted ev = R ∧ t.nvs.record = some R := by
  obtain ⟨flash, handle, faults⟩ := w
  have hflash : flash = .uart (some R) := by
    cases flash with
    | absent => simp [Nvs.record] at hrec
    | uart r => simp [Nvs.record] at hrec; rw [hrec]
  subst hflash
  have hnl : ¬ BUFFER_SIZE < R.length := by omega
  have htx : transmitted (send_bytes (R ++ buffer.drop R.length) R.length) = R := by
    rw [send_bytes_append_left, transmitted_map_single]
  rcases faults with _ | ⟨a, _ | ⟨b, _ | ⟨c, _ | ⟨d, _ | ⟨e, rest⟩⟩⟩⟩⟩ <;>
    (try cases a) <;> (try cases b) <;> (try cases c) <;> (try cases d) <;> (try cases e) <;>
    first
      | (simp at hfail hread; done)
      | (simp [store_and_echo, nvs_open, nvs_set_blob, nvs_commit, nvs_close, nvs_get_blob,
          Nvs.injected, Nvs.consume, Nvs.record, transmitted_append, transmitted, hnl, hR, htx]
         refine ⟨_, _, ⟨rfl, rfl⟩, ?_⟩
         simp [transmitted, htx])

/-! ## The calls of the retrieve action -/

theorem nvs_open_readonly_flash (w : Nvs) : (nvs_open .NVS_READONLY w).2.flash = w.flash := by
  obtain ⟨flash, handle, faults⟩ := w
  rcases faults with _ | ⟨a, rest⟩ <;> (try cases a) <;> cases flash <;>
    simp [nvs_open, Nvs.injected, Nvs.consume]

theorem nvs_open_handle (mode : OpenMode) (w : Nvs) :
    (nvs_open mode w).2.handle.isSome = (nvs_open mode w).1 := by
  obtain ⟨flash, handle, faults⟩ := w
  rcases faults with _ | ⟨a, rest⟩ <;> (try cases a) <;> cases mode <;> cases flash <;>
    simp [nvs_open, Nvs.injected, Nvs.consume]

theorem nvs_get_blob_handle (b : List Nat) (n : Nat) (w : Nvs) :
    (nvs_get_blob b n w).nvs.handle = w.handle := by
  unfold nvs_get_blob
  simp only []
  split
  · rfl
  · split
    · split <;> rfl
    · rfl

/-- The calls of the retrieve action, whatever fails: a failed `nvs_open` and
nothing else, or a successful `nvs_open`, `nvs_get_blob`, `nvs_close` on the
live handle and then transport writes only. -/
theorem retrieve_calls (w : Nvs) :
    ((nvs_open .NVS_READONLY w).1 = false ∧
        (uart_send_stored_nvs_data w).2 = [.nvs_open .NVS_READONLY false]) ∨
      ((nvs_open .NVS_READONLY w).1 = true ∧
        ∃ ok buf n, (uart_send_stored_nvs_data w).2 =
          [.nvs_open .NVS_READONLY true, .nvs_get_blob ok, .nvs_close true] ++
            send_bytes buf n) := by
  unfold uart_send_stored_nvs_data uart_send_stored_nvs_data_on
  simp only []
  split
  · rename_i h
    exact Or.inl ⟨h, rfl⟩
  · rename_i h
    have hopen : (nvs_open .NVS_READONLY w).1 = true := by
      cases hb : (nvs_open .NVS_READONLY w).1
      · exact absurd hb h
      · rfl
    have hlive : (nvs_close (nvs_get_blob (List.replicate BUFFER_SIZE 0) BUFFER_SIZE
        (nvs_open .NVS_READONLY w).2).nvs).1 = true := by
      simp only [nvs_close]
      rw [nvs_get_blob_handle, nvs_open_handle, hopen]
    refine Or.inr ⟨hopen, ?_⟩
    split
    · exact ⟨_, _, _, by rw [hlive]⟩
    · exact ⟨_, [], 0, by rw [hlive]; rfl⟩

/-- The retrieve action leaves the flash as it is, whatever fails. -/
theorem retrieve_flash (w : Nvs) : (uart_send_stored_nvs_data w).1.flash = w.flash := by
  unfold uart_send_stored_nvs_data uart_send_stored_nvs_data_on
  simp only []
  split
  · exact nvs_open_readonly_flash w
  · split <;>
      (simp only [nvs_close]; rw [nvs_get_blob_flash, nvs_open_readonly_flash])

/-- The retrieve action leaves no handle open, whatever fails. -/
theorem retrieve_handle (w : Nvs) : (uart_send_stored_nvs_data w).1.handle = none := by
  unfold uart_send_stored_nvs_data uart_send_stored_nvs_data_on
  simp only []
  split
  · rename_i h
    have := nvs_open_handle .NVS_READONLY w
    rw [h] at this
    simpa using this
  · split <;> rfl

theorem mem_send_bytes (buf : List Nat) (n : Nat) (e : Event) (h : e ∈ send_bytes buf n) :
    ∃ data, e = .uart_write_bytes data := by
  obtain ⟨b, -, hb⟩ := List.mem_map.1 h
  exact ⟨[b], hb.symm⟩

/-! ## Store-and-echo in terms of its write step and its read-back -/

theorem transmitted_eq_nil (e : List Event) (h : ∀ x ∈ e, StorageCall x) : transmitted e = [] := by
  induction e with
  | nil => rfl
  | cons x xs ih =>
      have hxs : ∀ y ∈ xs, StorageCall y := fun y hy => h y (List.mem_cons_of_mem _ hy)
      cases x with
      | uart_write_bytes d => exact absurd rfl (h _ (List.mem_cons_self _ _) d)
      | _ => simpa [transmitted] using ih hxs

theorem write_step_record (frame : List Nat) (w : Nvs) :
    (write_step frame w).record = w.record ∨ (write_step frame w).record = some frame :=
  write_phase_record frame w

/-- Whatever fails, store-and-echo makes its seven calls to the store, the
frame being the value passed to `nvs_set_blob`, and then transmits the first
`length` bytes of the buffer, both as `nvs_get_blob` of the read-back left
them; it is undefined when that length exceeds the buffer. -/
theorem store_and_echo_read_back (buffer : List Nat) (len : Nat) (w : Nvs)
    (h : (read_back buffer (write_step (buffer.take len) w)).length ≤ BUFFER_SIZE) :
    ∃ calls,
      store_and_echo buffer len w =
        .ok ({ buffer := (read_back buffer (write_step (buffer.take len) w)).out_value,
               len := 0,
               nvs := (nvs_close (read_back buffer (write_step (buffer.take len) w)).nvs).2 },
             calls ++ send_bytes (read_back buffer (write_step (buffer.take len) w)).out_value
               (read_back buffer (write_step (buffer.take len) w)).length) ∧
      (∀ e ∈ calls, StorageCall e) ∧ written calls = [buffer.take len] ∧
      Event.nvs_open .NVS_READONLY
        (nvs_open .NVS_READONLY (write_step (buffer.take len) w)).1 ∈ calls ∧
      Event.nvs_get_blob (read_back buffer (write_step (buffer.take len) w)).ok ∈ calls := by
  unfold read_back write_step at h
  unfold store_and_echo
  simp only []
  rw [if_pos h]
  refine ⟨_, rfl, ?_, rfl, ?_, ?_⟩
  · intro e he d hd
    subst hd
    simp at he
  · simp [write_step]
  · simp [read_back, write_step]

/-- The read-back of a stored record that fits, when neither call fails. -/
theorem read_back_of_record (buffer : List Nat) (w : Nvs) (R : List Nat)
    (hrec : w.record = some R) (hR : R.length ≤ BUFFER_SIZE) (hnf : NoFaults w) :
    (nvs_open .NVS_READONLY w).1 = true ∧ (read_back buffer w).ok = true ∧
      (read_back buffer w).length = R.length ∧
      (read_back buffer w).out_value = R ++ buffer.drop R.length ∧
      (read_back buffer w).nvs.record = some R := by
  obtain ⟨flash, handle, faults⟩ := w
  have hflash : flash = .uart (some R) := by
    cases flash with
    | absent => simp [Nvs.record] at hrec
    | uart r => simp [Nvs.record] at hrec; rw [hrec]
  subst hflash
  have hnl : ¬ BUFFER_SIZE < R.length := by omega
  rcases faults with _ | ⟨a, _ | ⟨b, rest⟩⟩ <;>
    simp [NoFaults] at hnf <;>
    simp [read_back, nvs_open, nvs_get_blob, Nvs.injected, Nvs.consume, Nvs.record, hnf, hnl]

/-- A read-back that returns `ESP_OK` on a store holding the record `R`: both
calls succeeded, `R` fits the buffer and has been copied to its start. -/
theorem read_back_of_ok (buffer : List Nat) (w : Nvs) (R : List Nat)
    (hrec : w.record = some R) (hok : (read_back buffer w).ok = true) :
    R.length ≤ BUFFER_SIZE ∧ (nvs_open .NVS_READONLY w).1 = true ∧
      (read_back buffer w).length = R.length ∧
      (read_back buffer w).out_value = R ++ buffer.drop R.length ∧
      (read_back buffer w).nvs.record = some R := by
  obtain ⟨flash, handle, faults⟩ := w
  have hflash : flash = .uart (some R) := by
    cases flash with
    | absent => simp [Nvs.record] at hrec
    | uart r => simp [Nvs.record] at hrec; rw [hrec]
  subst hflash
  rcases Nat.lt_or_ge BUFFER_SIZE R.length with hlt | hge
  · exfalso
    rcases faults with _ | ⟨a, _ | ⟨b, rest⟩⟩ <;> (try cases a) <;> (try cases b) <;>
      simp [read_back, nvs_open, nvs_get_blob, Nvs.injected, Nvs.consume, hlt] at hok
  · have hnl : ¬ BUFFER_SIZE < R.length := by omega
    rcases faults with _ | ⟨a, _ | ⟨b, rest⟩⟩ <;> (try cases a) <;> (try cases b) <;>
      first
        | (simp [read_back, nvs_open, nvs_get_blob, Nvs.injected, Nvs.consume, hnl] at hok; done)
        | simp [read_back, nvs_open, nvs_get_blob, Nvs.injected, Nvs.consume, Nvs.record, hnl,
            hge]

/-- Running the task on a concatenated input, when the first part returns. -/
theorem task_append_of_ok (a b : List Nat) (s s1 : State) (e1 : List Event)
    (ha : uart_nvs_echo_task s a = .ok (s1, e1)) :
    uart_nvs_echo_task s (a ++ b) =
      match uart_nvs_echo_task s1 b with
      | .error e => .error e
      | .ok (s2, e2) => .ok (s2, e1 ++ e2) := by
  induction a generalizing s e1 with
  | nil =>
      simp only [uart_nvs_echo_task, Except.ok.injEq, Prod.mk.injEq] at ha
      obtain ⟨rfl, rfl⟩ := ha
      rw [List.nil_append]
      cases uart_nvs_echo_task s b with
      | error e => rfl
      | ok r => obtain ⟨s2, e2⟩ := r; rfl
  | cons x xs ih =>
      obtain ⟨t, e, ev2, hx, hr, rfl⟩ := task_cons_ok s s1 x xs e1 ha
      rw [List.cons_append, uart_nvs_echo_task]
      simp only [hx]
      rw [ih t ev2 hr]
      cases uart_nvs_echo_task s1 b with
      | error e => rfl
      | ok r => obtain ⟨s2, e2⟩ := r; simp

theorem task_single (s : State) (b : Nat) :
    uart_nvs_echo_task s [b] = uart_nvs_echo_rx s b := by
  simp only [uart_nvs_echo_task]
  cases uart_nvs_echo_rx s b with
  | error e => rfl
  | ok r => obtain ⟨t, e⟩ := r; simp

/-- A well-formed frame received at a frame start, whatever fails in the
store: the frame is written to the start of the buffer, the rest of the
buffer keeps its content, and store-and-echo runs on it. -/
theorem task_frame_eq (F : List Nat) (s : State) (hF : WellFormedFrame F) (hlen : s.len = 0)
    (hbuf : s.buffer.length = BUFFER_SIZE) :
    uart_nvs_echo_task s F =
      store_and_echo (F ++ s.buffer.drop F.length) F.length s.nvs := by
  obtain ⟨body, rfl, hd, hl⟩ := wellFormedFrame_split F hF
  have hacc := task_accumulate body s hd (by omega) hbuf
  rw [hlen] at hacc
  simp only [List.take_zero, List.nil_append, Nat.zero_add] at hacc
  have hdrop : (s.buffer.drop body.length).length = BUFFER_SIZE - body.length := by
    simp [hbuf]
  have hset : (body ++ s.buffer.drop body.length).set body.length 0x0A =
      body ++ [0x0A] ++ s.buffer.drop (body.length + 1) := by
    rw [List.set_append_right _ _ (Nat.le_refl _), Nat.sub_self]
    cases hdr : s.buffer.drop body.length with
    | nil => rw [hdr] at hdrop; simp at hdrop; omega
    | cons y ys =>
        have : s.buffer.drop (body.length + 1) = ys := by
          rw [← List.drop_drop, hdr]; rfl
        simp [this]
  rw [task_append_of_ok body [0x0A] s _ _ hacc, task_single, rx_terminator _ (by simpa using hl)]
  simp only []
  rw [hset, List.length_append, List.length_singleton]
  cases store_and_echo (body ++ [0x0A] ++ s.buffer.drop (body.length + 1)) (body.length + 1)
      s.nvs with
  | error e => rfl
  | ok r => obtain ⟨t, e⟩ := r; simp

/-! ## Counting completed frames -/

theorem completed_frames_length (input cur : List Nat) :
    (completed_frames cur input).length = input.count 0x0A := by
  induction input generalizing cur with
  | nil => rfl
  | cons b rest ih =>
      by_cases hC : b = 0x3F ∨ b = 0x31
      · have hb : b ≠ 0x0A := by rcases hC with h | h <;> omega
        simp only [completed_frames, if_pos hC]
        rw [ih, List.count_cons_of_ne (Ne.symm hb)]
      · by_cases hT : b = 0x0A
        · subst hT
          simp only [completed_frames, if_neg hC, if_true, List.length_cons, List.count_cons_self]
          rw [ih]
        · simp only [completed_frames, if_neg hC, if_neg hT]
          rw [ih, List.count_cons_of_ne (Ne.symm hT)]

theorem completed_frames_nonempty (input cur : List Nat) :
    ∀ F ∈ completed_frames cur input, 1 ≤ F.length := by
  induction input generalizing cur with
  | nil => intro F hF; simp [completed_frames] at hF
  | cons b rest ih =>
      by_cases hC : b = 0x3F ∨ b = 0x31
      · simp only [completed_frames, if_pos hC]
        exact ih []
      · by_cases hT : b = 0x0A
        · simp only [completed_frames, if_neg hC, if_pos hT]
          intro F hF
          rcases List.mem_cons.1 hF with rfl | hF
          · simp
          · exact ih [] F hF
        · simp only [completed_frames, if_neg hC, if_neg hT]
          exact ih _

/-! ## Writes beyond the frame buffer -/

theorem store_and_echo_error (buffer : List Nat) (len : Nat) (w : Nvs) (e : Undefined)
    (h : store_and_echo buffer len w = .error e) : e = .buffer_read BUFFER_SIZE := by
  unfold store_and_echo at h
  simp only [] at h
  split at h
  · cases h
  · cases h; rfl

/-- A byte is written beyond the buffer exactly when it is not a command byte
and 512 bytes or more are accumulated; the index is `len`. -/
theorem rx_buffer_write_iff (t : State) (rx i : Nat) :
    uart_nvs_echo_rx t rx = .error (.buffer_write i) ↔
      (i = t.len ∧ BUFFER_SIZE ≤ t.len ∧ rx ≠ 0x3F ∧ rx ≠ 0x31) := by
  by_cases h1 : rx = 0x3F
  · subst h1
    rw [rx_identify]
    constructor
    · intro h; cases h
    · intro h; exact absurd rfl h.2.2.1
  · by_cases h2 : rx = 0x31
    · subst h2
      rw [rx_retrieve]
      constructor
      · intro h; cases h
      · intro h; exact absurd rfl h.2.2.2
    · by_cases h3 : BUFFER_SIZE ≤ t.len
      · simp only [uart_nvs_echo_rx, if_neg h1, if_neg h2, if_pos h3]
        constructor
        · intro h
          cases h
          exact ⟨rfl, h3, h1, h2⟩
        · intro h
          rw [h.1]
      · have hlt : t.len < BUFFER_SIZE := by omega
        constructor
        · intro h
          exfalso
          by_cases hT : rx = 0x0A
          · subst hT
            rw [rx_terminator t hlt] at h
            have := store_and_echo_error _ _ _ _ h
            cases this
          · rw [rx_data t rx ⟨h1, h2, hT⟩ hlt] at h
            cases h
        · intro h
          exact absurd h.2.1 h3

/-- Whatever fails in the store, no byte of an input whose frames fit is
written beyond the buffer. -/
theorem task_no_write_overflow (input : List Nat) (s : State)
    (hbuf : s.buffer.length = BUFFER_SIZE) (hfit : frames_fit s.len input = true) (i : Nat) :
    uart_nvs_echo_task s input ≠ .error (.buffer_write i) := by
  induction input generalizing s with
  | nil => intro h; cases h
  | cons b rest ih =>
      intro h
      rw [uart_nvs_echo_task] at h
      cases hx : uart_nvs_echo_rx s b with
      | error e =>
          rw [hx] at h
          simp only [Except.error.injEq] at h
          subst h
          obtain ⟨-, hge, h1, h2⟩ := (rx_buffer_write_iff s b i).1 hx
          have hC : ¬ (b = 0x3F ∨ b = 0x31) := by
            rintro (h | h)
            · exact h1 h
            · exact h2 h
          simp only [frames_fit, if_neg hC, Bool.and_eq_true, decide_eq_true_eq] at hfit
          omega
      | ok r =>
          obtain ⟨t, e⟩ := r
          rw [hx] at h
          simp only [] at h
          have htail : uart_nvs_echo_task t rest = .error (.buffer_write i) := by
            cases hr : uart_nvs_echo_task t rest with
            | error x => rw [hr] at h; simpa using h
            | ok r2 => rw [hr] at h; obtain ⟨s2, e2⟩ := r2; cases h
          by_cases hC : b = 0x3F ∨ b = 0x31
          · rw [rx_command s b hC] at hx
            simp only [Except.ok.injEq, Prod.mk.injEq] at hx
            obtain ⟨rfl, -⟩ := hx
            simp only [frames_fit, if_pos hC] at hfit
            exact ih { s with len := 0, nvs := (command_response b s.nvs).1 } hbuf hfit htail
          · simp only [frames_fit, if_neg hC, Bool.and_eq_true, decide_eq_true_eq] at hfit
            obtain ⟨hlt, hfit⟩ := hfit
            by_cases hT : b = 0x0A
            · subst hT
              simp only [if_true] at hfit
              rw [rx_terminator s hlt] at hx
              obtain ⟨htb, htl, -⟩ := store_and_echo_inv _ _ _ _ _ (by simp [hbuf]) hx
              exact ih t htb (by rw [htl]; exact hfit) htail
            · simp only [if_neg hT] at hfit
              have hD : DataByte b := ⟨fun h => hC (Or.inl h), fun h => hC (Or.inr h), hT⟩
              rw [rx_data s b hD hlt] at hx
              simp only [Except.ok.injEq, Prod.mk.injEq] at hx
              obtain ⟨rfl, -⟩ := hx
              exact ih { s with buffer := s.buffer.set s.len b, len := s.len + 1 }
                (by simp [hbuf]) hfit htail

/-- When reads of the buffer stay in bounds (no failure is injected, or the
stored record fits), an input with a frame that does not fit makes the task
write at index 512. -/
theorem task_overflow (input : List Nat) (s : State) (hbuf : s.buffer.length = BUFFER_SIZE)
    (hlen : s.len ≤ BUFFER_SIZE) (hsafe : NoFaults s.nvs ∨ RecordFits s.nvs)
    (hfit : frames_fit s.len input = false) :
    uart_nvs_echo_task s input = .error (.buffer_write BUFFER_SIZE) := by
  induction input generalizing s with
  | nil => simp [frames_fit] at hfit
  | cons b rest ih =>
      by_cases hC : b = 0x3F ∨ b = 0x31
      · simp only [frames_fit, if_pos hC] at hfit
        have hsafe2 : NoFaults (command_response b s.nvs).1 ∨
            RecordFits (command_response b s.nvs).1 := by
          rcases hsafe with h | h
          · exact Or.inl (command_response_noFaults b s.nvs h)
          · exact Or.inr (fun r hr => h r (command_response_record b s.nvs ▸ hr))
        have := ih { s with len := 0, nvs := (command_response b s.nvs).1 } hbuf
          (Nat.zero_le _) hsafe2 hfit
        simp only [uart_nvs_echo_task, rx_command s b hC, this]
      · simp only [frames_fit, if_neg hC] at hfit
        have h1 : b ≠ 0x3F := fun h => hC (Or.inl h)
        have h2 : b ≠ 0x31 := fun h => hC (Or.inr h)
        by_cases hlt : s.len < BUFFER_SIZE
        · simp only [hlt, decide_True, Bool.true_and] at hfit
          by_cases hT : b = 0x0A
          · subst hT
            simp only [if_true] at hfit
            have hstep : ∃ t e, store_and_echo (s.buffer.set s.len 0x0A) (s.len + 1) s.nvs =
                .ok (t, e) ∧ (NoFaults t.nvs ∨ RecordFits t.nvs) := by
              rcases hsafe with h | h
              · refine ⟨_, _, store_and_echo_ok _ _ _ h (by omega) (by simp [hbuf]), Or.inl ?_⟩
                exact fun x hx => h x (List.mem_of_mem_drop hx)
              · obtain ⟨t, e, hx, hr⟩ := store_and_echo_total (s.buffer.set s.len 0x0A)
                  (s.len + 1) s.nvs (by omega) h
                exact ⟨t, e, hx, Or.inr hr⟩
            obtain ⟨t, e, hx, hsafe2⟩ := hstep
            obtain ⟨htb, htl, -⟩ := store_and_echo_inv _ _ _ _ _ (by simp [hbuf]) hx
            have := ih t htb (by omega) hsafe2 (by rw [htl]; exact hfit)
            simp only [uart_nvs_echo_task, rx_terminator s hlt, hx, this]
          · simp only [if_neg hT] at hfit
            have := ih { s with buffer := s.buffer.set s.len b, len := s.len + 1 }
              (by simp [hbuf]) (by simpa using hlt) hsafe hfit
            simp only [uart_nvs_echo_task, rx_data s b ⟨h1, h2, hT⟩ hlt, this]
        · have heq : s.len = BUFFER_SIZE := by omega
          have hge : BUFFER_SIZE ≤ s.len := by omega
          have hx := (rx_buffer_write_iff s b s.len).2 ⟨rfl, hge, h1, h2⟩
          simp only [uart_nvs_echo_task, hx, heq]

/-- Whatever fails in the store, 512 data bytes received from a frame start
followed by a byte that is not a command byte make the task write at index
512. -/
theorem task_overflow_pattern (s : State) (body : List Nat) (b : Nat) (rest : List Nat)
    (hlen : s.len = 0) (hbuf : s.buffer.length = BUFFER_SIZE) (hd : ∀ x ∈ body, DataByte x)
    (hl : body.length = BUFFER_SIZE) (h1 : b ≠ 0x3F) (h2 : b ≠ 0x31) :
    uart_nvs_echo_task s (body ++ b :: rest) = .error (.buffer_write BUFFER_SIZE) := by
  have hacc := task_accumulate body s hd (by omega) hbuf
  rw [task_append_of_ok body (b :: rest) s _ _ hacc]
  have hx := (rx_buffer_write_iff
    { buffer := s.buffer.take s.len ++ body ++ s.buffer.drop (s.len + body.length),
      len := s.len + body.length, nvs := s.nvs } b (s.len + body.length)).2
    ⟨rfl, by simp only []; omega, h1, h2⟩
  simp only [uart_nvs_echo_task, hx]
  rw [hlen, hl, Nat.zero_add]

/-! ## Commands under an arbitrary failure schedule -/

/-- C1: store-then-retrieve round trip. For every well-formed frame `F` (1 to
512 bytes, terminator last and only there, no `'?'` or `'1'`), received at a
frame start with any stored record and with all storage operations
succeeding, the command byte `'1'` that follows makes
`uart_send_stored_nvs_data` transmit exactly the bytes of `F`, in order. -/
theorem C1_store_then_retrieve (s : State) (F : List Nat) (hF : WellFormedFrame F)
    (hlen : s.len = 0) (hbuf : s.buffer.length = BUFFER_SIZE) (hnf : NoFaults s.nvs) :
    ∃ s1 e1 s2,
      uart_nvs_echo_task s F = .ok (s1, e1) ∧
      uart_nvs_echo_rx s1 0x31 = .ok (s2, (uart_send_stored_nvs_data s1.nvs).2) ∧
      transmitted (uart_send_stored_nvs_data s1.nvs).2 = F ∧
      uart_nvs_echo_task s (F ++ [0x31]) =
        .ok (s2, e1 ++ (uart_send_stored_nvs_data s1.nvs).2) := by
  have h1 := task_frame_fresh F s hF hlen hbuf hnf
  refine ⟨_, _, _, h1, rx_retrieve _, ?_, ?_⟩
  · have := (retrieve_noFaults ⟨.uart (some F), none, s.nvs.faults.drop 5⟩
      (fun b hb => hnf b (List.mem_of_mem_drop hb))).1
    simpa [Nvs.record, hF.2.1] using this
  · refine task_append F [0x31] s _ _ _ _ h1 ?_
    simp [uart_nvs_echo_task, rx_retrieve]

/-- Witness of C1 on the frame `H`, `i`, `\n` from the fresh state. -/
theorem C1_store_then_retrieve_witness :
    ∃ s1 e1 s2,
      uart_nvs_echo_task fresh [0x48, 0x69, 0x0A] = .ok (s1, e1) ∧
      uart_nvs_echo_rx s1 0x31 = .ok (s2, (uart_send_stored_nvs_data s1.nvs).2) ∧
      transmitted (uart_send_stored_nvs_data s1.nvs).2 = [0x48, 0x69, 0x0A] ∧
      uart_nvs_echo_task fresh ([0x48, 0x69, 0x0A] ++ [0x31]) =
        .ok (s2, e1 ++ (uart_send_stored_nvs_data s1.nvs).2) :=
  C1_store_then_retrieve fresh [0x48, 0x69, 0x0A] (by decide) rfl fresh_buffer_length (by decide)

/-- C2: echo of a completed frame. For every well-formed frame `F` received at
a frame start with all storage operations succeeding, the stored record
afterwards is `F` and the bytes transmitted are exactly the bytes of `F`, in
order, and nothing else. -/
theorem C2_echo_completed_frame (s : State) (F : List Nat) (hF : WellFormedFrame F)
    (hlen : s.len = 0) (hbuf : s.buffer.length = BUFFER_SIZE) (hnf : NoFaults s.nvs) :
    ∃ s1 e1,
      uart_nvs_echo_task s F = .ok (s1, e1) ∧ s1.nvs.record = some F ∧ transmitted e1 = F :=
  ⟨_, _, task_frame_fresh F s hF hlen hbuf hnf, rfl, transmitted_echo_events F⟩

/-- Witness of C2: `H`, `i`, `\n` is stored and echoed as `0x48 0x69 0x0A`, and
the frame made of the terminator alone is stored and echoed as `0x0A`. -/
theorem C2_echo_completed_frame_witness :
    (∃ s1 e1, uart_nvs_echo_task fresh [0x48, 0x69, 0x0A] = .ok (s1, e1) ∧
        s1.nvs.record = some [0x48, 0x69, 0x0A] ∧ transmitted e1 = [0x48, 0x69, 0x0A]) ∧
    (∃ s1 e1, uart_nvs_echo_task fresh [0x0A] = .ok (s1, e1) ∧
        s1.nvs.record = some [0x0A] ∧ transmitted e1 = [0x0A]) :=
  ⟨C2_echo_completed_frame fresh [0x48, 0x69, 0x0A] (by decide) rfl fresh_buffer_length
      (by decide),
   C2_echo_completed_frame fresh [0x0A] (by decide) rfl fresh_buffer_length (by decide)⟩

/-- C3: identification reply. In every reader state (any number of bytes
accumulated, any buffer) and for every stored record, the byte `'?'` makes
the task perform exactly one transport write, of the 26 bytes of
`"ESP32_UART_TARGET:UNIT_01\n"` in order, the last one being `0x0A`; nothing
else is transmitted and no other call is made before the next byte is read,
and the next frame starts empty. -/
theorem C3_identify_reply (s : State) :
    uart_nvs_echo_rx s 0x3F =
        .ok ({ buffer := s.buffer, len := 0, nvs := s.nvs }, [.uart_write_bytes DEVICE_ID]) ∧
      transmitted [.uart_write_bytes DEVICE_ID] =
        [0x45, 0x53, 0x50, 0x33, 0x32, 0x5F, 0x55, 0x41, 0x52, 0x54, 0x5F, 0x54, 0x41, 0x52,
         0x47, 0x45, 0x54, 0x3A, 0x55, 0x4E, 0x49, 0x54, 0x5F, 0x30, 0x31, 0x0A] ∧
      DEVICE_ID.length = 26 ∧ DEVICE_ID.getLast? = some 0x0A :=
  ⟨rx_identify s, by decide, by decide, by decide⟩

/-- C4: overwriting. For every two well-formed frames `F1` and `F2` received
one after the other from a frame start, with all storage operations
succeeding, the command byte `'1'` that follows makes the retrieve action
transmit exactly `F2`, hence not `F1` when the two differ. -/
theorem C4_overwrite (s : State) (F1 F2 : List Nat) (h1 : WellFormedFrame F1)
    (h2 : WellFormedFrame F2) (hlen : s.len = 0) (hbuf : s.buffer.length = BUFFER_SIZE)
    (hnf : NoFaults s.nvs) :
    ∃ s1 e1 s2,
      uart_nvs_echo_task s (F1 ++ F2) = .ok (s1, e1) ∧
      uart_nvs_echo_rx s1 0x31 = .ok (s2, (uart_send_stored_nvs_data s1.nvs).2) ∧
      transmitted (uart_send_stored_nvs_data s1.nvs).2 = F2 ∧
      (F1 ≠ F2 → transmitted (uart_send_stored_nvs_data s1.nvs).2 ≠ F1) := by
  have ha := task_frame_fresh F1 s h1 hlen hbuf hnf
  have hl1 : F1.length ≤ s.buffer.length := by rw [hbuf]; exact h1.2.1
  have hb := task_frame_fresh F2
    { buffer := F1 ++ s.buffer.drop F1.length, len := 0,
      nvs := { flash := .uart (some F1), handle := none, faults := s.nvs.faults.drop 5 } }
    h2 rfl (by simp; omega) (fun b hb => hnf b (List.mem_of_mem_drop hb))
  have ht : transmitted (uart_send_stored_nvs_data
      ⟨.uart (some F2), none, (s.nvs.faults.drop 5).drop 5⟩).2 = F2 := by
    have := (retrieve_noFaults ⟨.uart (some F2), none, (s.nvs.faults.drop 5).drop 5⟩
      (fun b hb => hnf b (List.mem_of_mem_drop (List.mem_of_mem_drop hb)))).1
    simpa [Nvs.record, h2.2.1] using this
  refine ⟨_, _, _, task_append F1 F2 s _ _ _ _ ha hb, rx_retrieve _, ht, ?_⟩
  intro hne heq
  exact hne (heq.symm.trans ht)

/-- Witness of C4 on the frames `A`, `\n` and `B`, `\n` from the fresh state. -/
theorem C4_overwrite_witness :
    ∃ s1 e1 s2,
      uart_nvs_echo_task fresh ([0x41, 0x0A] ++ [0x42, 0x0A]) = .ok (s1, e1) ∧
      uart_nvs_echo_rx s1 0x31 = .ok (s2, (uart_send_stored_nvs_data s1.nvs).2) ∧
      transmitted (uart_send_stored_nvs_data s1.nvs).2 = [0x42, 0x0A] ∧
      ([0x41, 0x0A] ≠ [0x42, 0x0A] →
        transmitted (uart_send_stored_nvs_data s1.nvs).2 ≠ [0x41, 0x0A]) :=
  C4_overwrite fresh [0x41, 0x0A] [0x42, 0x0A] (by decide) (by decide) rfl fresh_buffer_length
    (by decide)

/-- C5: retrieve with nothing stored. When the command byte `'1'` is received
and the namespace cannot be opened, or `nvs_get_blob` does not return
`ESP_OK`, or the record read has length 0, `uart_send_stored_nvs_data`
transmits no byte. -/
theorem C5_retrieve_nothing_stored (s : State)
    (h : (nvs_open .NVS_READONLY s.nvs).1 = false ∨
         (nvs_get_blob (List.replicate BUFFER_SIZE 0) BUFFER_SIZE
            (nvs_open .NVS_READONLY s.nvs).2).ok = false ∨
         (nvs_get_blob (List.replicate BUFFER_SIZE 0) BUFFER_SIZE
            (nvs_open .NVS_READONLY s.nvs).2).length = 0) :
    transmitted (uart_send_stored_nvs_data s.nvs).2 = [] ∧
      ∃ s1, uart_nvs_echo_rx s 0x31 = .ok (s1, (uart_send_stored_nvs_data s.nvs).2) := by
  refine ⟨?_, _, rx_retrieve s⟩
  unfold uart_send_stored_nvs_data uart_send_stored_nvs_data_on
  simp only []
  split
  · rfl
  · rename_i hopen
    have hg : ¬ ((nvs_get_blob (List.replicate BUFFER_SIZE 0) BUFFER_SIZE
        (nvs_open .NVS_READONLY s.nvs).2).ok = true ∧
        0 < (nvs_get_blob (List.replicate BUFFER_SIZE 0) BUFFER_SIZE
          (nvs_open .NVS_READONLY s.nvs).2).length) := by
      rintro ⟨hok, hpos⟩
      rcases h with h | h | h
      · exact hopen h
      · rw [hok] at h; exact Bool.noConfusion h
      · omega
    rw [if_neg hg]
    rfl

/-- Witness of C5: the namespace does not exist; the namespace exists and the
record is absent; the record is empty. -/
theorem C5_retrieve_nothing_stored_witness :
    (transmitted (uart_send_stored_nvs_data fresh.nvs).2 = [] ∧
      ∃ s1, uart_nvs_echo_rx fresh 0x31 = .ok (s1, (uart_send_stored_nvs_data fresh.nvs).2)) ∧
    (transmitted (uart_send_stored_nvs_data (⟨.uart none, none, []⟩ : Nvs)).2 = [] ∧
      ∃ s1, uart_nvs_echo_rx ⟨fresh.buffer, 0, ⟨.uart none, none, []⟩⟩ 0x31 =
        .ok (s1, (uart_send_stored_nvs_data (⟨.uart none, none, []⟩ : Nvs)).2)) ∧
    (transmitted (uart_send_stored_nvs_data (⟨.uart (some []), none, []⟩ : Nvs)).2 = [] ∧
      ∃ s1, uart_nvs_echo_rx ⟨fresh.buffer, 0, ⟨.uart (some []), none, []⟩⟩ 0x31 =
        .ok (s1, (uart_send_stored_nvs_data (⟨.uart (some []), none, []⟩ : Nvs)).2)) :=
  ⟨C5_retrieve_nothing_stored fresh (Or.inl rfl),
   C5_retrieve_nothing_stored ⟨fresh.buffer, 0, ⟨.uart none, none, []⟩⟩ (Or.inr (Or.inl rfl)),
   C5_retrieve_nothing_stored ⟨fresh.buffer, 0, ⟨.uart (some []), none, []⟩⟩
     (Or.inr (Or.inr rfl))⟩

/-- C8: stored-record invariant over arbitrary input. For every finite input
stream in which no frame exceeds 512 bytes, processed from a frame start with
all storage operations succeeding, the task returns, the values passed to
`nvs_set_blob` are exactly the frames completed by a terminator, in order, and
the stored record afterwards is the last completed frame, or the record of
the start if no frame was completed. -/
theorem C8_stored_record_invariant (s : State) (input : List Nat) (hlen : s.len = 0)
    (hbuf : s.buffer.length = BUFFER_SIZE) (hnf : NoFaults s.nvs)
    (hfit : frames_fit 0 input = true) :
    ∃ s1 ev, uart_nvs_echo_task s input = .ok (s1, ev) ∧
      s1.nvs.record =
        (match (completed_frames [] input).getLast? with
         | some F => some F
         | none => s.nvs.record) ∧
      written ev = completed_frames [] input := by
  obtain ⟨s1, ev, hrun, hrec, hwr⟩ := task_noFaults input s hbuf hnf (by rw [hlen]; exact hfit)
  refine ⟨s1, ev, hrun, ?_, ?_⟩
  · rw [hrec, hlen, List.take_zero, last_completed_eq]
  · rw [hwr, hlen, List.take_zero]

/-- Witness of C8 on the stream `A` `\n` `B` `?` `C` `\n` `D`: the frames
`A` `\n` and `C` `\n` are completed, `B` is abandoned and `D` is in progress. -/
theorem C8_stored_record_invariant_witness :
    ∃ s1 ev, uart_nvs_echo_task fresh [0x41, 0x0A, 0x42, 0x3F, 0x43, 0x0A, 0x44] = .ok (s1, ev) ∧
      s1.nvs.record =
        (match (completed_frames [] [0x41, 0x0A, 0x42, 0x3F, 0x43, 0x0A, 0x44]).getLast? with
         | some F => some F
         | none => fresh.nvs.record) ∧
      written ev = completed_frames [] [0x41, 0x0A, 0x42, 0x3F, 0x43, 0x0A, 0x44] :=
  C8_stored_record_invariant fresh [0x41, 0x0A, 0x42, 0x3F, 0x43, 0x0A, 0x44] rfl
    fresh_buffer_length (by decide) (by decide)

/-- C9: well-formedness of every record the core writes. For every input
stream whose frames fit the 512-byte buffer, processed from a frame start,
and whatever storage operations fail: in a run that returns, every value
passed to `nvs_set_blob` has at least 1 and at most 512 bytes, ends in `0x0A`,
has no other `0x0A` and contains no `'?'` and no `'1'`; and the run does
return when no failure is injected or when the record stored at the start
has at most 512 bytes. -/
theorem C9_written_records_well_formed (s : State) (input : List Nat) (hlen : s.len = 0)
    (hbuf : s.buffer.length = BUFFER_SIZE) (hfit : frames_fit 0 input = true) :
    (∀ s1 ev, uart_nvs_echo_task s input = .ok (s1, ev) →
        ∀ v ok, Event.nvs_set_blob v ok ∈ ev → WellFormedFrame v) ∧
      (NoFaults s.nvs ∨ RecordFits s.nvs → ∃ s1 ev, uart_nvs_echo_task s input = .ok (s1, ev)) := by
  constructor
  · intro s1 ev hrun v ok hmem
    have hw := task_written input s s1 ev hbuf hrun
    rw [hlen, List.take_zero] at hw
    exact completed_frames_wellFormed input [] (fun b hb => by cases hb) hfit v
      (hw ▸ mem_written ev v ok hmem)
  · rintro (hnf | hrec)
    · obtain ⟨s1, ev, hrun, -⟩ := task_noFaults input s hbuf hnf (by rw [hlen]; exact hfit)
      exact ⟨s1, ev, hrun⟩
    · exact task_total input s hbuf hrec (by rw [hlen]; exact hfit)

/-- Witness of C9 on the stream `A` `\n` `B` `?` `C` `\n` `D`, with a store
whose first call fails. -/
theorem C9_written_records_well_formed_witness :
    (∀ s1 ev, uart_nvs_echo_task ⟨fresh.buffer, 0, ⟨.absent, none, [true]⟩⟩
          [0x41, 0x0A, 0x42, 0x3F, 0x43, 0x0A, 0x44] = .ok (s1, ev) →
        ∀ v ok, Event.nvs_set_blob v ok ∈ ev → WellFormedFrame v) ∧
      (NoFaults (⟨.absent, none, [true]⟩ : Nvs) ∨ RecordFits (⟨.absent, none, [true]⟩ : Nvs) →
        ∃ s1 ev, uart_nvs_echo_task ⟨fresh.buffer, 0, ⟨.absent, none, [true]⟩⟩
          [0x41, 0x0A, 0x42, 0x3F, 0x43, 0x0A, 0x44] = .ok (s1, ev)) :=
  C9_written_records_well_formed ⟨fresh.buffer, 0, ⟨.absent, none, [true]⟩⟩
    [0x41, 0x0A, 0x42, 0x3F, 0x43, 0x0A, 0x44] rfl fresh_buffer_length (by decide)

/-- C10, as amended: a failed write is not signalled by silence. For every
completed frame (the terminator received with fewer than 512 bytes
accumulated), if a call of the write step fails (`nvs_open`, `nvs_set_blob` or
`nvs_commit`) and the read-back succeeds, then the record `R` stored before is
still stored and the bytes transmitted for the frame are exactly `R`; this is
silence only if `R` is empty. -/
theorem C10_failed_write_echoes_stale_record (s : State) (R : List Nat)
    (hlen : s.len < BUFFER_SIZE) (hrec : s.nvs.record = some R) (hR : R.length ≤ BUFFER_SIZE)
    (hfail : s.nvs.faults.getD 0 false = true ∨ s.nvs.faults.getD 1 false = true ∨
      s.nvs.faults.getD 2 false = true)
    (hread : s.nvs.faults.getD 3 false = false ∧ s.nvs.faults.getD 4 false = false) :
    ∃ t ev, uart_nvs_echo_rx s 0x0A = .ok (t, ev) ∧
      (Event.nvs_open .NVS_READWRITE false ∈ ev ∨
        Event.nvs_set_blob ((s.buffer.set s.len 0x0A).take (s.len + 1)) false ∈ ev ∨
        Event.nvs_commit false ∈ ev) ∧
      Event.nvs_get_blob true ∈ ev ∧ transmitted ev = R ∧ t.nvs.record = some R := by
  rw [rx_terminator s hlen]
  exact store_and_echo_stale _ _ _ R hrec hR hfail hread

/-- Witness of C10 as amended: the store holds `A` `\n`, the frame `\n` is
received and `nvs_set_blob` fails. -/
theorem C10_failed_write_echoes_stale_record_witness :
    ∃ t ev,
      uart_nvs_echo_rx ⟨fresh.buffer, 0, ⟨.uart (some [0x41, 0x0A]), none, [false, true]⟩⟩ 0x0A =
        .ok (t, ev) ∧
      (Event.nvs_open .NVS_READWRITE false ∈ ev ∨
        Event.nvs_set_blob ((fresh.buffer.set 0 0x0A).take (0 + 1)) false ∈ ev ∨
        Event.nvs_commit false ∈ ev) ∧
      Event.nvs_get_blob true ∈ ev ∧ transmitted ev = [0x41, 0x0A] ∧
      t.nvs.record = some [0x41, 0x0A] :=
  C10_failed_write_echoes_stale_record
    ⟨fresh.buffer, 0, ⟨.uart (some [0x41, 0x0A]), none, [false, true]⟩⟩
    [0x41, 0x0A] (by decide) rfl (by decide) (Or.inr (Or.inl rfl)) ⟨rfl, rfl⟩

/-- C10 as stated fails. The store holds `A` `\n` and the frame `\n` is
received. When `nvs_set_blob` fails, the bytes `A` `\n` are transmitted; when
`nvs_get_blob` of the read-back fails, 512 bytes are transmitted, the frame
first. In both runs a storage operation of the store-and-echo step fails and
the transport is not silent. -/
theorem C10_silence_counterexample :
    (∃ t ev,
      uart_nvs_echo_task
          ⟨fresh.buffer, 0, ⟨.uart (some [0x41, 0x0A]), none, [false, true]⟩⟩ [0x0A] =
        .ok (t, ev) ∧
      ev = [.nvs_open .NVS_READWRITE true, .nvs_set_blob [0x0A] false, .nvs_commit true,
            .nvs_close true, .nvs_open .NVS_READONLY true, .nvs_get_blob true, .nvs_close true,
            .uart_write_bytes [0x41], .uart_write_bytes [0x0A]] ∧
      transmitted ev = [0x41, 0x0A] ∧ transmitted ev ≠ []) ∧
    (∃ t ev,
      uart_nvs_echo_task
          ⟨fresh.buffer, 0, ⟨.uart (some [0x41, 0x0A]), none, [false, false, false, false, true]⟩⟩
          [0x0A] = .ok (t, ev) ∧
      Event.nvs_get_blob false ∈ ev ∧
      transmitted ev = 0x0A :: List.replicate 511 0 ∧ transmitted ev ≠ []) :=
  ⟨⟨_, _, rfl, by decide, by decide, by decide⟩, ⟨_, _, rfl, by decide, by decide, by decide⟩⟩

/-- C11: commands do not touch the stored record. In every reader state, for
every content of the store and whatever storage operation fails: the byte
`'?'` makes no call to the store at all and leaves the store as it is; the
byte `'1'` makes only calls of the read path (`nvs_open` read-only,
`nvs_get_blob`, `nvs_close`, transport writes) and leaves the flash, hence
the stored record, as it is. -/
theorem C11_commands_keep_stored_record (s : State) :
    (∃ t ev, uart_nvs_echo_rx s 0x3F = .ok (t, ev) ∧ t.nvs = s.nvs ∧
        ∀ e ∈ ev, ¬ StorageCall e) ∧
      (∃ t ev, uart_nvs_echo_rx s 0x31 = .ok (t, ev) ∧ (∀ e ∈ ev, ReadPathCall e) ∧
        t.nvs.flash = s.nvs.flash ∧ t.nvs.record = s.nvs.record) := by
  refine ⟨⟨_, _, rx_identify s, rfl, ?_⟩, ⟨_, _, rx_retrieve s, ?_, retrieve_flash s.nvs,
    retrieve_record s.nvs⟩⟩
  · intro e he hst
    simp only [List.mem_singleton] at he
    exact hst _ he
  · intro e he
    rcases retrieve_calls s.nvs with ⟨-, h⟩ | ⟨-, ok, buf, n, h⟩
    · rw [h] at he
      simp only [List.mem_singleton] at he
      exact Or.inl ⟨false, he⟩
    · rw [h] at he
      rcases List.mem_append.1 he with he | he
      · simp only [List.mem_cons, List.mem_singleton, List.not_mem_nil, or_false] at he
        rcases he with he | he | he
        · exact Or.inl ⟨true, he⟩
        · exact Or.inr (Or.inl ⟨ok, he⟩)
        · exact Or.inr (Or.inr (Or.inl ⟨true, he⟩))
      · exact Or.inr (Or.inr (Or.inr (mem_send_bytes buf n e he)))

/-- C12, as amended: the retrieve action leaves no handle open. Whatever
fails, no handle is live when `uart_send_stored_nvs_data` returns. When
`nvs_open` succeeds, `nvs_close` is called on the live handle exactly once,
right after `nvs_get_blob` and before any transport write, whether the
record is absent, empty or present. When `nvs_open` fails (namespace
missing) there is no handle and the function returns without calling
`nvs_close`. -/
theorem C12_retrieve_leaves_no_handle_open (w : Nvs) :
    (uart_send_stored_nvs_data w).1.handle = none ∧
      ((nvs_open .NVS_READONLY w).1 = true →
        ∃ ok tx, (uart_send_stored_nvs_data w).2 =
            [.nvs_open .NVS_READONLY true, .nvs_get_blob ok, .nvs_close true] ++ tx ∧
          ∀ e ∈ tx, ∃ data, e = Event.uart_write_bytes data) ∧
      ((nvs_open .NVS_READONLY w).1 = false →
        (uart_send_stored_nvs_data w).2 = [.nvs_open .NVS_READONLY false]) := by
  refine ⟨retrieve_handle w, ?_, ?_⟩
  · intro hopen
    rcases retrieve_calls w with ⟨hf, -⟩ | ⟨-, ok, buf, n, h⟩
    · rw [hopen] at hf; cases hf
    · exact ⟨ok, send_bytes buf n, h, fun e he => mem_send_bytes buf n e he⟩
  · intro hopen
    rcases retrieve_calls w with ⟨-, h⟩ | ⟨ht, -⟩
    · exact h
    · rw [hopen] at ht; cases ht

/-- C12 as stated fails. With no namespace in the flash, `nvs_open` fails and
`uart_send_stored_nvs_data` returns after that single call: `nvs_close` is
not called. -/
theorem C12_close_counterexample :
    (uart_send_stored_nvs_data fresh.nvs).2 = [.nvs_open .NVS_READONLY false] ∧
      ∀ live, Event.nvs_close live ∉ (uart_send_stored_nvs_data fresh.nvs).2 := by
  have h : (uart_send_stored_nvs_data fresh.nvs).2 = [.nvs_open .NVS_READONLY false] := by
    decide
  refine ⟨h, ?_⟩
  intro live hm
  rw [h] at hm
  simp at hm

/-- C13, as amended: the read-back, not the frame in memory, decides the
echo. For every well-formed frame `F` received at a frame start and every
record `R`, if the store holds `R` after the write step (its `nvs_open`,
`nvs_set_blob` or `nvs_commit` did not take effect) and the read-back
succeeds (`nvs_get_blob` returns `ESP_OK`), then `R` has at most 512 bytes,
the task has passed `F` to `nvs_set_blob`, and it transmits exactly the
bytes of `R`; when `R` differs from `F`, `R` is the record stored before and
the bytes transmitted are not `F`. -/
theorem C13_read_back_decides_echo (s : State) (F R : List Nat) (hF : WellFormedFrame F)
    (hlen : s.len = 0) (hbuf : s.buffer.length = BUFFER_SIZE)
    (hstale : (write_step F s.nvs).record = some R)
    (hread : (read_back (F ++ s.buffer.drop F.length) (write_step F s.nvs)).ok = true) :
    ∃ t ev, uart_nvs_echo_task s F = .ok (t, ev) ∧ written ev = [F] ∧
      Event.nvs_open .NVS_READONLY true ∈ ev ∧ Event.nvs_get_blob true ∈ ev ∧
      transmitted ev = R ∧ R.length ≤ BUFFER_SIZE ∧ t.nvs.record = some R ∧
      (R ≠ F → s.nvs.record = some R ∧ transmitted ev ≠ F) := by
  have htake : (F ++ s.buffer.drop F.length).take F.length = F := List.take_left _ _
  obtain ⟨hR, hopen, hlenR, hout, hrec⟩ :=
    read_back_of_ok (F ++ s.buffer.drop F.length) (write_step F s.nvs) R hstale hread
  have hok := hread
  obtain ⟨calls, hse, hst, hwr, hmo, hmg⟩ := store_and_echo_read_back
    (F ++ s.buffer.drop F.length) F.length s.nvs (by rw [htake, hlenR]; exact hR)
  rw [htake] at hse hwr hmo hmg
  rw [hopen] at hmo
  rw [hok] at hmg
  rw [hlenR, hout] at hse
  rw [← task_frame_eq F s hF hlen hbuf] at hse
  have htx : transmitted (calls ++ send_bytes
      (R ++ (F ++ s.buffer.drop F.length).drop R.length) R.length) = R := by
    rw [transmitted_append, transmitted_eq_nil calls hst, send_bytes_append_left,
      transmitted_map_single, List.nil_append]
  refine ⟨_, _, hse, ?_, List.mem_append_left _ hmo, List.mem_append_left _ hmg, htx, hR, ?_,
    ?_⟩
  · rw [written_append, hwr, written_eq_nil (send_bytes _ _)]
    · rfl
    · intro v ok hm
      obtain ⟨x, hx⟩ := mem_send_bytes _ _ _ hm
      cases hx
  · simp only []
    rw [nvs_close_record]
    exact hrec
  · intro hne
    refine ⟨?_, fun h => hne (htx.symm.trans h)⟩
    rcases write_step_record F s.nvs with h | h
    · rw [← h]; exact hstale
    · rw [h] at hstale
      cases hstale
      exact absurd rfl hne

/-- Witness of C13 as amended: the store holds `A` `\n`, the frame `B` `\n` is
received and `nvs_set_blob` fails. -/
theorem C13_read_back_decides_echo_witness :
    ∃ t ev,
      uart_nvs_echo_task ⟨fresh.buffer, 0, ⟨.uart (some [0x41, 0x0A]), none, [false, true]⟩⟩
          [0x42, 0x0A] = .ok (t, ev) ∧
      written ev = [[0x42, 0x0A]] ∧
      Event.nvs_open .NVS_READONLY true ∈ ev ∧ Event.nvs_get_blob true ∈ ev ∧
      transmitted ev = [0x41, 0x0A] ∧ [0x41, 0x0A].length ≤ BUFFER_SIZE ∧
      t.nvs.record = some [0x41, 0x0A] ∧
      ([0x41, 0x0A] ≠ [0x42, 0x0A] →
        (⟨.uart (some [0x41, 0x0A]), none, [false, true]⟩ : Nvs).record = some [0x41, 0x0A] ∧
        transmitted ev ≠ [0x42, 0x0A]) :=
  C13_read_back_decides_echo ⟨fresh.buffer, 0, ⟨.uart (some [0x41, 0x0A]), none, [false, true]⟩⟩
    [0x42, 0x0A] [0x41, 0x0A] (by decide) rfl fresh_buffer_length (by decide) (by decide)

/-- C13 as stated fails. The store holds `A` `\n`, the frame `B` `\n` is
received and every call to the store fails: the write step does not take
effect and the store still holds `A` `\n`, but the read-back fails too and
the echo loop transmits 512 bytes that start with the frame `B` `\n`, not the
two bytes of the stored record. -/
theorem C13_stale_echo_counterexample :
    WellFormedFrame [0x42, 0x0A] ∧
    ∃ t ev,
      uart_nvs_echo_task
          ⟨fresh.buffer, 0, ⟨.uart (some [0x41, 0x0A]), none, [true, true, true, true, true]⟩⟩
          [0x42, 0x0A] = .ok (t, ev) ∧
      Event.nvs_open .NVS_READWRITE false ∈ ev ∧
      Event.nvs_set_blob [0x42, 0x0A] false ∈ ev ∧ Event.nvs_commit false ∈ ev ∧
      (write_step [0x42, 0x0A]
        ⟨.uart (some [0x41, 0x0A]), none, [true, true, true, true, true]⟩).record =
        some [0x41, 0x0A] ∧
      t.nvs.record = some [0x41, 0x0A] ∧
      transmitted ev = 0x42 :: 0x0A :: List.replicate 510 0 ∧
      transmitted ev ≠ [0x41, 0x0A] :=
  ⟨by decide, _, _, rfl, by decide, by decide, by decide, by decide, by decide, by decide,
    by decide⟩

/-- C14: frame-buffer bounds. A byte that is not a command byte is written at
index `len` of the buffer, with no capacity check, and `len` is then
incremented: the k-th byte of a frame goes to index k - 1. One byte is
written beyond the buffer exactly when it is not a command byte and `len`
has reached 512, at index `len`. From a frame start, 512 data bytes followed
by a byte that is neither `'?'` nor `'1'` give a write at index 512,
whatever fails in the store. For every input stream whose frames fit (at
most 512 bytes, terminator included) no write is beyond the buffer; for
every input stream with a frame that does not fit, the task writes at index
512 (reads of the buffer staying in bounds: no injected failure, or a stored
record that fits). -/
theorem C14_frame_buffer_bounds (s : State) (input : List Nat) (hlen : s.len = 0)
    (hbuf : s.buffer.length = BUFFER_SIZE) :
    (∀ (t : State) (rx : Nat), t.len < BUFFER_SIZE → rx ≠ 0x3F → rx ≠ 0x31 →
        uart_nvs_echo_rx t rx =
          if rx = 0x0A then store_and_echo (t.buffer.set t.len rx) (t.len + 1) t.nvs
          else .ok ({ t with buffer := t.buffer.set t.len rx, len := t.len + 1 }, [])) ∧
      (∀ (t : State) (rx i : Nat),
        uart_nvs_echo_rx t rx = .error (.buffer_write i) ↔
          (i = t.len ∧ BUFFER_SIZE ≤ t.len ∧ rx ≠ 0x3F ∧ rx ≠ 0x31)) ∧
      (∀ (body : List Nat) (b : Nat) (rest : List Nat), (∀ x ∈ body, DataByte x) →
        body.length = BUFFER_SIZE → b ≠ 0x3F → b ≠ 0x31 →
        uart_nvs_echo_task s (body ++ b :: rest) = .error (.buffer_write BUFFER_SIZE)) ∧
      (frames_fit 0 input = true →
        ∀ i, uart_nvs_echo_task s input ≠ .error (.buffer_write i)) ∧
      (frames_fit 0 input = false → NoFaults s.nvs ∨ RecordFits s.nvs →
        uart_nvs_echo_task s input = .error (.buffer_write BUFFER_SIZE)) := by
  refine ⟨?_, rx_buffer_write_iff, ?_, ?_, ?_⟩
  · intro t rx hlt h1 h2
    by_cases hT : rx = 0x0A
    · subst hT
      rw [if_pos rfl]
      exact rx_terminator t hlt
    · rw [if_neg hT]
      exact rx_data t rx ⟨h1, h2, hT⟩ hlt
  · intro body b rest hd hl h1 h2
    exact task_overflow_pattern s body b rest hlen hbuf hd hl h1 h2
  · intro hfit i
    exact task_no_write_overflow input s hbuf (by rw [hlen]; exact hfit) i
  · intro hfit hsafe
    exact task_overflow input s hbuf (by omega) hsafe (by rw [hlen]; exact hfit)

/-- Witness of C14 from the fresh state: the stream of 512 bytes `A` followed
by `\n` makes the task write at index 512, and the stream of 511 bytes `A`
followed by `\n` makes no write beyond the buffer. -/
theorem C14_frame_buffer_bounds_witness :
    uart_nvs_echo_task fresh (List.replicate 512 0x41 ++ [0x0A]) =
        .error (.buffer_write BUFFER_SIZE) ∧
      ∀ i, uart_nvs_echo_task fresh (List.replicate 511 0x41 ++ [0x0A]) ≠
        .error (.buffer_write i) :=
  ⟨(C14_frame_buffer_bounds fresh (List.replicate 512 0x41 ++ [0x0A]) rfl
      fresh_buffer_length).2.2.2.2 (by decide) (Or.inl (by decide)),
   (C14_frame_buffer_bounds fresh (List.replicate 511 0x41 ++ [0x0A]) rfl
      fresh_buffer_length).2.2.2.1 (by decide)⟩

/-- C15: the zero-length branch is dead. When the terminator is received
within the capacity, `len` has been incremented before the break, so it is
at least 1 and the task goes on to store-and-echo with `len` bytes; received
as the first byte of a frame, the terminator gives the one-byte frame `0x0A`.
For every input stream and whatever fails in the store, a run that returns
has called `nvs_set_blob` once for every terminator received, each time with
at least one byte: no terminator took the `len == 0` branch. Such a run
exists when the frames fit and no failure is injected or the record stored
at the start fits the buffer. -/
theorem C15_zero_length_branch_dead (s : State) (input : List Nat)
    (hbuf : s.buffer.length = BUFFER_SIZE) :
    (∀ t : State, t.len < BUFFER_SIZE →
        1 ≤ t.len + 1 ∧
        uart_nvs_echo_rx t 0x0A =
          store_and_echo (t.buffer.set t.len 0x0A) (t.len + 1) t.nvs) ∧
      (∀ s1 ev, uart_nvs_echo_task s input = .ok (s1, ev) →
        (written ev).length = input.count 0x0A ∧ ∀ v ∈ written ev, 1 ≤ v.length) ∧
      (s.len = 0 → ∀ s1 ev, uart_nvs_echo_task s [0x0A] = .ok (s1, ev) →
        written ev = [[0x0A]]) ∧
      (frames_fit s.len input = true → NoFaults s.nvs ∨ RecordFits s.nvs →
        ∃ s1 ev, uart_nvs_echo_task s input = .ok (s1, ev)) := by
  refine ⟨fun t ht => ⟨Nat.le_add_left 1 t.len, rx_terminator t ht⟩, ?_, ?_, ?_⟩
  · intro s1 ev hrun
    have hw := task_written input s s1 ev hbuf hrun
    rw [hw]
    exact ⟨completed_frames_length input _, completed_frames_nonempty input _⟩
  · intro hlen s1 ev hrun
    have hw := task_written [0x0A] s s1 ev hbuf hrun
    rw [hw, hlen]
    rfl
  · rintro hfit (hnf | hrec)
    · obtain ⟨s1, ev, hrun, -⟩ := task_noFaults input s hbuf hnf hfit
      exact ⟨s1, ev, hrun⟩
    · exact task_total input s hbuf hrec hfit

/-- Witness of C15 on the stream `\n` `A` `\n` `?` `\n` from the fresh state:
the run returns with as many `nvs_set_blob` calls as terminators, none of
them with an empty value. -/
theorem C15_zero_length_branch_dead_witness :
    ∃ s1 ev, uart_nvs_echo_task fresh [0x0A, 0x41, 0x0A, 0x3F, 0x0A] = .ok (s1, ev) ∧
      (written ev).length = [0x0A, 0x41, 0x0A, 0x3F, 0x0A].count 0x0A ∧
      ∀ v ∈ written ev, 1 ≤ v.length :=
  match (C15_zero_length_branch_dead fresh [0x0A, 0x41, 0x0A, 0x3F, 0x0A]
      fresh_buffer_length).2.2.2 (by decide) (Or.inl (by decide)) with
  | ⟨s1, ev, hrun⟩ =>
      ⟨s1, ev, hrun,
        (C15_zero_length_branch_dead fresh [0x0A, 0x41, 0x0A, 0x3F, 0x0A]
          fresh_buffer_length).2.1 s1 ev hrun⟩

/-- C16: a failed read-back transmits the full buffer. For every well-formed
frame `F` of `n` bytes received at a frame start, if `nvs_get_blob` of the
read-back does not return `ESP_OK` and leaves its length argument at
`sizeof(buffer)` and the buffer as it was, the echo loop transmits exactly
512 bytes: the `n` bytes of `F`, then the 512 - `n` bytes that the frame
buffer held at the indices from `n` on before the frame was received. -/
theorem C16_failed_read_back_sends_full_buffer (s : State) (F : List Nat)
    (hF : WellFormedFrame F) (hlen : s.len = 0) (hbuf : s.buffer.length = BUFFER_SIZE)
    (hfail : (read_back (F ++ s.buffer.drop F.length) (write_step F s.nvs)).ok = false)
    (hlength : (read_back (F ++ s.buffer.drop F.length) (write_step F s.nvs)).length =
      BUFFER_SIZE)
    (hvalue : (read_back (F ++ s.buffer.drop F.length) (write_step F s.nvs)).out_value =
      F ++ s.buffer.drop F.length) :
    ∃ t ev, uart_nvs_echo_task s F = .ok (t, ev) ∧ Event.nvs_get_blob false ∈ ev ∧
      transmitted ev = F ++ s.buffer.drop F.length ∧
      (transmitted ev).length = BUFFER_SIZE ∧
      (transmitted ev).take F.length = F ∧
      (transmitted ev).drop F.length = s.buffer.drop F.length := by
  have htake : (F ++ s.buffer.drop F.length).take F.length = F := List.take_left _ _
  have hBlen : (F ++ s.buffer.drop F.length).length = BUFFER_SIZE := by
    have := hF.2.1
    simp [hbuf]; omega
  obtain ⟨calls, hse, hst, -, -, hmg⟩ := store_and_echo_read_back
    (F ++ s.buffer.drop F.length) F.length s.nvs (by rw [htake, hlength])
  rw [htake] at hse hmg
  rw [hfail] at hmg
  rw [hlength, hvalue] at hse
  rw [← task_frame_eq F s hF hlen hbuf] at hse
  have htx : transmitted (calls ++ send_bytes (F ++ s.buffer.drop F.length) BUFFER_SIZE) =
      F ++ s.buffer.drop F.length := by
    rw [transmitted_append, transmitted_eq_nil calls hst, transmitted_send_bytes,
      List.nil_append]
    exact List.take_of_length_le (Nat.le_of_eq hBlen)
  refine ⟨_, _, hse, List.mem_append_left _ hmg, htx, ?_, ?_, ?_⟩
  · rw [htx, hBlen]
  · rw [htx]; exact List.take_left _ _
  · rw [htx]; exact List.drop_left _ _

/-- Witness of C16. After the frame `A` `B` `C` `\n` has been stored and
echoed, the frame `\n` is received and `nvs_get_blob` of its read-back fails:
the 512 bytes transmitted start with `\n` `B` `C` `\n`. -/
theorem C16_failed_read_back_sends_full_buffer_witness :
    uart_nvs_echo_task
        ⟨fresh.buffer, 0,
          ⟨.absent, none,
            [false, false, false, false, false, false, false, false, false, true]⟩⟩
        [0x41, 0x42, 0x43, 0x0A] =
      .ok (⟨[0x41, 0x42, 0x43, 0x0A] ++ List.replicate 508 0, 0,
            ⟨.uart (some [0x41, 0x42, 0x43, 0x0A]), none, [false, false, false, false, true]⟩⟩,
           echo_events [0x41, 0x42, 0x43, 0x0A]) ∧
    ∃ t ev,
      uart_nvs_echo_task
          ⟨[0x41, 0x42, 0x43, 0x0A] ++ List.replicate 508 0, 0,
            ⟨.uart (some [0x41, 0x42, 0x43, 0x0A]), none, [false, false, false, false, true]⟩⟩
          [0x0A] = .ok (t, ev) ∧
      Event.nvs_get_blob false ∈ ev ∧
      transmitted ev =
        [0x0A] ++ ([0x41, 0x42, 0x43, 0x0A] ++ List.replicate 508 0).drop [0x0A].length ∧
      (transmitted ev).length = BUFFER_SIZE ∧
      (transmitted ev).take [0x0A].length = [0x0A] ∧
      (transmitted ev).drop [0x0A].length =
        ([0x41, 0x42, 0x43, 0x0A] ++ List.replicate 508 0).drop [0x0A].length :=
  ⟨by decide,
   C16_failed_read_back_sends_full_buffer
     ⟨[0x41, 0x42, 0x43, 0x0A] ++ List.replicate 508 0, 0,
       ⟨.uart (some [0x41, 0x42, 0x43, 0x0A]), none, [false, false, false, false, true]⟩⟩
     [0x0A] (by decide) rfl (by decide) (by decide) (by decide) (by decide)⟩

end UartNvs
